import Mathlib

/-!
# rf-migrate: the migration lifecycle engine

A shallow embedding of `pkg/migrate/migrate.go`, of the ledger operations of
`pkg/db/db.go` and of the commit command of `cmd/commit.go`.

The engine talks to three external collaborators: the staging file `current.sql`,
the `migrations` directory and the Postgres ledger table `rf_migrate.migrations`.
They are the fields of `World`, next to the files a path built from a file name
may reach outside them.  Every call that can fail for a reason outside the
program (a file-system error, a lost connection, SQL the database rejects) first
consumes one entry of the schedule `World.faults`; `true` makes that call fail.
Failures the program state itself decides (a missing file, an empty ledger, a
primary-key collision) are modelled directly.
-/

namespace RfMigrate

/-! ## Data model -/

/-- Migration is the record type of package db.  The `date` column is not a field:
the rows of the ledger are kept in ascending `date` order, which is the order
`GetAppliedMigrations` returns them in. `PreviousHash` is a Go string, so a record
without predecessor carries the empty string. -/
structure Migration where
  Hash : String
  PreviousHash : String
  FileName : String
  deriving DecidableEq, Repr

/-- One entry of the migrations directory, as `os.ReadDir` reports it, together
with the content a read of it returns. -/
structure DirEntry where
  Name : String
  IsDir : Bool
  Content : String
  deriving DecidableEq, Repr

/-- The state outside the process. -/
structure World where
  /-- content of `current.sql`; `none` when the file does not exist -/
  current : Option String
  /-- entries of the `migrations` directory, in on-disk order -/
  migrations : List DirEntry
  /-- rows of `rf_migrate.migrations`, ascending by `date` -/
  ledger : List Migration
  /-- every SQL text handed to `DB.Execute`, oldest first, with whether it succeeded -/
  execLog : List (String × Bool)
  /-- outcomes the environment imposes on the coming fallible calls -/
  faults : List Bool
  /-- the regular files that are neither `current.sql` nor entries of the
  `migrations` directory, each under its absolute path, a list of path elements -/
  elsewhere : List (List String × String) := []
  /-- absolute path of the configured migration directory, as path elements (empty
  for the root); it holds `current.sql` and the directory `migrations` -/
  dir : List String := ["srv", "db"]
  deriving DecidableEq, Repr

/-- The errors the engine and the commit command return, one per message. -/
inductive Error where
  /-- failed to read current.sql -/
  | readCurrent
  /-- nothing to commit: current.sql is empty -/
  | nothingToCommit
  /-- failed to get applied migrations -/
  | getApplied
  /-- failed to write migration file -/
  | writeMigrationFile
  /-- failed to apply migration -/
  | applyMigration
  /-- failed to record migration -/
  | recordMigration
  /-- failed to clear current.sql -/
  | clearCurrent
  /-- failed to read migrations directory -/
  | readDir
  /-- failed to read migration file %s -/
  | readFile (file : String)
  /-- failed to apply migration %s -/
  | applyFile (file : String)
  /-- failed to record migration %s -/
  | recordFile (file : String)
  /-- failed to remove last migration -/
  | removeLast
  /-- failed to read migration file -/
  | readMigrationFile
  /-- failed to update current.sql -/
  | updateCurrent
  /-- failed to delete migration file -/
  | deleteMigrationFile
  /-- migration name is required -/
  | nameRequired
  /-- an error of createMigrator -/
  | createMigrator
  /-- failed to execute query -/
  | executeQuery
  deriving DecidableEq, Repr

deriving instance DecidableEq for Except

/-! ## Environment primitives -/

/-- Whether the environment makes the next fallible call fail; an exhausted
schedule means no failure. -/
def failing (w : World) : Bool := w.faults.headD false

/-- The world once the next scheduled outcome is consumed. -/
def tick (w : World) : World := { w with faults := w.faults.tail }

/-- The call os.ReadFile(m.CurrentSQL). -/
def readCurrent (w : World) : Option String × World :=
  if failing w then (none, tick w) else (w.current, tick w)

/-- The call os.WriteFile(m.CurrentSQL, content, 0644). -/
def writeCurrent (content : String) (w : World) : Bool × World :=
  if failing w then (false, tick w) else (true, { tick w with current := some content })

/-- Content of the regular file called `name` in a directory. -/
def readEntry (name : String) : List DirEntry → Option String
  | [] => none
  | e :: rest =>
    if e.Name = name then (if e.IsDir then none else some e.Content)
    else readEntry name rest

/-- Directory after creating or truncating the regular file `name`; writing over
a directory fails. -/
def writeEntry (name content : String) : List DirEntry → Option (List DirEntry)
  | [] => some [{ Name := name, IsDir := false, Content := content }]
  | e :: rest =>
    if e.Name = name then
      (if e.IsDir then none else some ({ e with Content := content } :: rest))
    else (writeEntry name content rest).map (fun r => e :: r)

/-- Directory after unlinking `name`; unlinking what is not there fails. -/
def removeEntry (name : String) (entries : List DirEntry) : Option (List DirEntry) :=
  if entries.any (fun e => decide (e.Name = name)) then
    some (entries.filter (fun e => decide (e.Name ≠ name)))
  else none

/-- The call os.ReadFile(filepath.Join(m.MigrationsDir, file)) of Migrate, where
`file` is a name os.ReadDir returned for that directory: such a name is one path
element, so the joined path is the entry of that name. -/
def osReadListedFile (name : String) (w : World) : Option String × World :=
  if failing w then (none, tick w) else (readEntry name w.migrations, tick w)

/-! ### Paths built from a file name

Commit and Uncommit pass filepath.Join(m.MigrationsDir, fileName) to the operating
system, with a file name that comes from the caller or from the ledger.  Join
cleans the path: it drops empty elements and ".", and lets ".." cancel the element
before it.  Paths are read on a Unix file system without links, from the absolute
location of the migration directory, where the parent of the root is the root. -/

/-- The elements of a slash-separated path; `acc` holds the characters of the
element being read, last one first. -/
def splitSlash : List Char → List Char → List String
  | acc, [] => [String.mk acc.reverse]
  | acc, c :: cs =>
    if c = '/' then String.mk acc.reverse :: splitSlash [] cs else splitSlash (c :: acc) cs

/-- The elements of a slash-separated path. -/
def pathElements (path : String) : List String := splitSlash [] path.data

/-- The directory or file reached from the absolute path `start` by the given
elements, as filepath.Clean leaves it. -/
def walk : List String → List String → List String
  | start, [] => start
  | start, e :: rest =>
    if e = "" ∨ e = "." then walk start rest
    else if e = ".." then walk start.dropLast rest
    else walk (start ++ [e]) rest

/-- What an absolute path names, as far as the engine is concerned. -/
inductive Place where
  /-- the entry of that name in the `migrations` directory -/
  | entry (name : String)
  /-- the file `current.sql` -/
  | staging
  /-- the `migrations` directory itself or a directory above it -/
  | directory
  /-- any other path -/
  | other (path : List String)
  deriving DecidableEq, Repr

/-- What filepath.Join(m.MigrationsDir, name) names, for the migration directory
at `dir`. -/
def place (dir : List String) (name : String) : Place :=
  if walk (dir ++ ["migrations"]) (pathElements name) = dir ++ ["current.sql"] then .staging
  else if (walk (dir ++ ["migrations"]) (pathElements name)).isPrefixOf (dir ++ ["migrations"])
    then .directory
  else if (walk (dir ++ ["migrations"]) (pathElements name)).dropLast = dir ++ ["migrations"]
    then .entry ((walk (dir ++ ["migrations"]) (pathElements name)).getLastD "")
  else .other (walk (dir ++ ["migrations"]) (pathElements name))

/-- Content of the file stored under a path. -/
def lookupPath (path : List String) : List (List String × String) → Option String
  | [] => none
  | (q, c) :: rest => if q = path then some c else lookupPath path rest

/-- The files after writing `content` under a path. -/
def storePath (path : List String) (content : String) :
    List (List String × String) → List (List String × String)
  | [] => [(path, content)]
  | (q, c) :: rest =>
    if q = path then (q, content) :: rest else (q, c) :: storePath path content rest

/-- Content of the regular file at a place, if there is one. -/
def readPlace (w : World) : Place → Option String
  | .entry name => readEntry name w.migrations
  | .staging => w.current
  | .directory => none
  | .other path => lookupPath path w.elsewhere

/-- The world after creating or truncating the file at a place.  Outside the
migrations directory the file system decides through `World.faults` alone
whether the write goes through (the parent directory may be missing). -/
def writePlace (content : String) (w : World) : Place → Option World
  | .entry name =>
    (writeEntry name content w.migrations).map (fun entries => { w with migrations := entries })
  | .staging => some { w with current := some content }
  | .directory => none
  | .other path => some { w with elsewhere := storePath path content w.elsewhere }

/-- The world after unlinking the file at a place. -/
def removePlace (w : World) : Place → Option World
  | .entry name =>
    (removeEntry name w.migrations).map (fun entries => { w with migrations := entries })
  | .staging => if w.current.isSome then some { w with current := none } else none
  | .directory => none
  | .other path =>
    if (lookupPath path w.elsewhere).isSome then
      some { w with elsewhere := w.elsewhere.filter (fun f => decide (f.1 ≠ path)) }
    else none

/-- Content of the file that filepath.Join(m.MigrationsDir, name) names. -/
def fileAt (w : World) (name : String) : Option String := readPlace w (place w.dir name)

/-- The call os.ReadFile(filepath.Join(m.MigrationsDir, name)). -/
def osReadFile (name : String) (w : World) : Option String × World :=
  if failing w then (none, tick w) else (fileAt w name, tick w)

/-- The call os.WriteFile(filepath.Join(m.MigrationsDir, name), content, 0644). -/
def osWriteFile (name content : String) (w : World) : Bool × World :=
  if failing w then (false, tick w)
  else
    match writePlace content (tick w) (place w.dir name) with
    | none => (false, tick w)
    | some w1 => (true, w1)

/-- The call os.Remove(filepath.Join(m.MigrationsDir, name)). -/
def osRemove (name : String) (w : World) : Bool × World :=
  if failing w then (false, tick w)
  else
    match removePlace (tick w) (place w.dir name) with
    | none => (false, tick w)
    | some w1 => (true, w1)

/-- Byte-wise lexicographic comparison of Go strings, on code points (UTF-8 keeps
their order). -/
def bytesLe : List Char → List Char → Bool
  | [], _ => true
  | _ :: _, [] => false
  | a :: as, b :: bs => decide (a.toNat < b.toNat) || (decide (a.toNat = b.toNat) && bytesLe as bs)

/-- Order of file names used by os.ReadDir. -/
def nameLe (a b : String) : Prop := bytesLe a.data b.data = true

instance : DecidableRel nameLe := fun a b => by unfold nameLe; infer_instance

/-- Order of directory entries by file name. -/
def entryLe (a b : DirEntry) : Prop := nameLe a.Name b.Name

instance : DecidableRel entryLe := fun a b => by unfold entryLe; infer_instance

/-- The call os.ReadDir(dir): all entries of the directory sorted by filename. -/
def osReadDir (w : World) : Option (List DirEntry) × World :=
  if failing w then (none, tick w) else (some (w.migrations.insertionSort entryLe), tick w)

/-- The call m.DB.Execute(query). -/
def dbExecute (query : String) (w : World) : Bool × World :=
  if failing w then (false, { tick w with execLog := w.execLog ++ [(query, false)] })
  else (true, { tick w with execLog := w.execLog ++ [(query, true)] })

/-- PostgresDB.GetAppliedMigrations: all rows ordered by date ascending. -/
def GetAppliedMigrations (w : World) : Option (List Migration) × World :=
  if failing w then (none, tick w) else (some w.ledger, tick w)

/-- PostgresDB.ApplyMigration: one insert in a transaction; `hash` is the primary
key, so a row with the same hash makes the insert fail. -/
def ApplyMigration (fileName hash previousHash : String) (w : World) : Bool × World :=
  if failing w then (false, tick w)
  else if w.ledger.any (fun m => decide (m.Hash = hash)) then (false, tick w)
  else (true, { tick w with ledger := w.ledger ++
          [{ Hash := hash, PreviousHash := previousHash, FileName := fileName }] })

/-- PostgresDB.RemoveLastMigration: selects the row with the latest date and
deletes the rows with its hash, in one transaction. -/
def RemoveLastMigration (w : World) : Option Migration × World :=
  if failing w then (none, tick w)
  else
    match w.ledger.getLast? with
    | none => (none, tick w)
    | some m =>
      (some m, { tick w with ledger := w.ledger.filter (fun r => decide (r.Hash ≠ m.Hash)) })

/-! ## The engine -/

/-- Two lower-case hexadecimal digits per byte, as hex.EncodeToString. -/
def hexEncodeToString (bs : List Nat) : String :=
  String.mk (bs.flatMap (fun b =>
    ["0123456789abcdef".data.getD (b / 16 % 16) '0', "0123456789abcdef".data.getD (b % 16) '0']))

/-- The function computeHash; `sum256` stands for sha256.Sum256 of the standard
library, returning the digest bytes. -/
def computeHash (sum256 : String → List Nat) (content : String) : String :=
  hexEncodeToString (sum256 content)

/-- The call strings.ReplaceAll(name, " ", "_"). -/
def sanitize (name : String) : String :=
  String.mk (name.data.map (fun c => if c = ' ' then '_' else c))

/-- The migration file name fmt.Sprintf("%s_%s.sql", timestamp, sanitizedName). -/
def migrationFileName (timestamp name : String) : String :=
  timestamp ++ "_" ++ sanitize name ++ ".sql"

/-- Hash of the last row, or the empty string for an empty list. -/
def lastHashOf (migrations : List Migration) : String :=
  match migrations.getLast? with
  | none => ""
  | some m => m.Hash

/-- Migrator.Apply. -/
def Apply (w : World) : Except Error Unit × World :=
  match readCurrent w with
  | (none, w1) => (.error .readCurrent, w1)
  | (some content, w1) =>
    if content.length = 0 then (.ok (), w1)
    else
      match dbExecute content w1 with
      | (false, w2) => (.error .executeQuery, w2)
      | (true, w2) => (.ok (), w2)

/-- Migrator.Commit; `timestamp` is time.Now().UTC().Format("20060102150405"). -/
def Commit (sum256 : String → List Nat) (timestamp name : String) (w : World) :
    Except Error Unit × World :=
  match readCurrent w with
  | (none, w1) => (.error .readCurrent, w1)
  | (some content, w1) =>
    if content.length = 0 then (.error .nothingToCommit, w1)
    else
      let fileName := migrationFileName timestamp name
      let hash := computeHash sum256 content
      match GetAppliedMigrations w1 with
      | (none, w2) => (.error .getApplied, w2)
      | (some migrations, w2) =>
        let previousHash := lastHashOf migrations
        match osWriteFile fileName content w2 with
        | (false, w3) => (.error .writeMigrationFile, w3)
        | (true, w3) =>
          match dbExecute content w3 with
          | (false, w4) => (.error .applyMigration, w4)
          | (true, w4) =>
            match ApplyMigration fileName hash previousHash w4 with
            | (false, w5) => (.error .recordMigration, w5)
            | (true, w5) =>
              match writeCurrent "" w5 with
              | (false, w6) => (.error .clearCurrent, w6)
              | (true, w6) => (.ok (), w6)

/-- The function getFiles: names of the regular entries ending in ".sql", in the
order os.ReadDir lists them. -/
def getFiles (w : World) : Option (List String) × World :=
  match osReadDir w with
  | (none, w1) => (none, w1)
  | (some entries, w1) =>
    (some ((entries.filter (fun e => !e.IsDir && ".sql".data.isSuffixOf e.Name.data)).map
      DirEntry.Name), w1)

/-- The loop of Migrator.Migrate over the catalog; `appliedFiles` is the key set
of the map built from the ledger listing. -/
def migrateLoop (sum256 : String → List Nat) (appliedFiles : List String) :
    List String → String → Nat → World → Except Error Nat × World
  | [], _, appliedCount, w => (.ok appliedCount, w)
  | file :: rest, lastHash, appliedCount, w =>
    if file ∈ appliedFiles then migrateLoop sum256 appliedFiles rest lastHash appliedCount w
    else
      match osReadListedFile file w with
      | (none, w1) => (.error (.readFile file), w1)
      | (some content, w1) =>
        match dbExecute content w1 with
        | (false, w2) => (.error (.applyFile file), w2)
        | (true, w2) =>
          let hash := computeHash sum256 content
          match ApplyMigration file hash lastHash w2 with
          | (false, w3) => (.error (.recordFile file), w3)
          | (true, w3) => migrateLoop sum256 appliedFiles rest hash (appliedCount + 1) w3

/-- Migrator.Migrate; the value on success is the count it prints. -/
def Migrate (sum256 : String → List Nat) (w : World) : Except Error Nat × World :=
  match GetAppliedMigrations w with
  | (none, w1) => (.error .getApplied, w1)
  | (some appliedMigrations, w1) =>
    match getFiles w1 with
    | (none, w2) => (.error .readDir, w2)
    | (some files, w2) =>
      migrateLoop sum256 (appliedMigrations.map Migration.FileName) files
        (lastHashOf appliedMigrations) 0 w2

/-- Migrator.Uncommit. -/
def Uncommit (w : World) : Except Error Unit × World :=
  match RemoveLastMigration w with
  | (none, w1) => (.error .removeLast, w1)
  | (some migration, w1) =>
    match osReadFile migration.FileName w1 with
    | (none, w2) => (.error .readMigrationFile, w2)
    | (some content, w2) =>
      match readCurrent w2 with
      | (none, w3) => (.error .readCurrent, w3)
      | (some currentContent, w3) =>
        match writeCurrent (content ++ currentContent) w3 with
        | (false, w4) => (.error .updateCurrent, w4)
        | (true, w4) =>
          match osRemove migration.FileName w4 with
          | (false, w5) => (.error .deleteMigrationFile, w5)
          | (true, w5) => (.ok (), w5)

/-- The function createMigrator of package cmd: loads the configuration (which
creates an empty current.sql when there is none), connects to the database and
builds the migrator (which ensures the ledger table). -/
def createMigrator (w : World) : Bool × World :=
  if failing w then (false, tick w)
  else
    let w1 := { tick w with current := some (w.current.getD "") }
    if failing w1 then (false, tick w1)
    else if failing (tick w1) then (false, tick (tick w1))
    else (true, tick (tick w1))

/-- The RunE function of commitCmd. -/
def commitCmdRunE (sum256 : String → List Nat) (timestamp commitName : String) (w : World) :
    Except Error Unit × World :=
  if commitName = "" then (.error .nameRequired, w)
  else
    match createMigrator w with
    | (false, w1) => (.error .createMigrator, w1)
    | (true, w1) => Commit sum256 timestamp commitName w1

/-! ## Sequences of calls -/

/-- One step of a session: a call of Commit, a call of Migrate, or whatever
happens outside the tool between two calls (the operator edits current.sql, files
appear in or leave the migrations directory, the environment changes its mind
about what will fail).  Nothing but the tool writes the ledger. -/
inductive Step where
  | commit (timestamp name : String)
  | migrate
  | outside (current : Option String) (migrations : List DirEntry) (faults : List Bool)
  deriving DecidableEq, Repr

/-- The world after one step, whether the call succeeded or failed. -/
def Step.exec (sum256 : String → List Nat) : Step → World → World
  | .commit timestamp name, w => (Commit sum256 timestamp name w).2
  | .migrate, w => (Migrate sum256 w).2
  | .outside current migrations faults, w =>
    { w with current := current, migrations := migrations, faults := faults }

/-- The world after a sequence of steps. -/
def runSteps (sum256 : String → List Nat) : List Step → World → World
  | [], w => w
  | s :: rest, w => runSteps sum256 rest (s.exec sum256 w)

/-! ## Vocabulary of the statements -/

/-- A list of records in which the first one has previous hash `prev` and every
other one has the hash of the record before it as previous hash. -/
def chained : String → List Migration → Prop
  | _, [] => True
  | prev, m :: rest => m.PreviousHash = prev ∧ chained m.Hash rest


/-- The rows a run of Migrate is to append for the given files, each a name with
its content, in order: every row carries the digest of its content and the hash
of the row before it, the first one the hash `prev`. -/
def chainRecords (sum256 : String → List Nat) : String → List (String × String) → List Migration
  | _, [] => []
  | prev, (file, content) :: rest =>
    Migration.mk (computeHash sum256 content) prev file ::
      chainRecords sum256 (computeHash sum256 content) rest

/-- The catalog entries Migrate has to process: the names not recorded in the
ledger listing. -/
def unrecorded (appliedFiles files : List String) : List String :=
  files.filter (fun f => decide (f ∉ appliedFiles))

/-- The listing getFiles returns for a directory that can be read. -/
def catalog (entries : List DirEntry) : List String :=
  ((entries.insertionSort entryLe).filter
    (fun e => !e.IsDir && ".sql".data.isSuffixOf e.Name.data)).map DirEntry.Name

/-- A file name without a path separator. -/
def noSlash (name : String) : Prop := '/' ∉ name.data

instance : DecidablePred noSlash := fun name => by unfold noSlash; infer_instance

/-! ## Sample data -/

/-- A stand-in for sha256.Sum256 where a concrete digest is needed: the code
points of the text. -/
def sampleSum256 (content : String) : List Nat := content.data.map Char.toNat

/-- A fresh project with one staged change. -/
def sampleStaged : World :=
  { current := some "create table t(id int);", migrations := [], ledger := [],
    execLog := [], faults := [] }

/-- A project whose migrations directory already holds a file under the name
the next Commit is going to use. -/
def sampleOccupied : World :=
  { current := some "create table t(id int);",
    migrations := [DirEntry.mk "20240101000000_init.sql" false "select 1;"],
    ledger := [], execLog := [], faults := [] }

/-- A project with migration files A.sql and B.sql (listed out of order on disk),
a text file and a subdirectory; A.sql is recorded in the ledger, B.sql is not. -/
def sampleProject : World :=
  { current := some "",
    migrations := [DirEntry.mk "B.sql" false "create table b(id int);",
      DirEntry.mk "notes.txt" false "todo", DirEntry.mk "old.sql" true "",
      DirEntry.mk "A.sql" false "create table a(id int);"],
    ledger := [Migration.mk (computeHash sampleSum256 "create table a(id int);") "" "A.sql"],
    execLog := [("create table a(id int);", true)], faults := [] }

/-- The sample project with a third migration file, on a day the database
rejects the second statement it is sent. -/
def sampleFailing : World :=
  { sampleProject with
    migrations := sampleProject.migrations ++
      [DirEntry.mk "C.sql" false "create table c(id int);", DirEntry.mk "D.sql" false "drop table d;"],
    faults := [false, false, false, false, false, false, true] }

/-- A session: a commit; a new staged change whose commit the database rejects;
the same change staged again beside two files brought in from elsewhere; a
commit that goes through; a migrate. -/
def sampleSession : List Step :=
  [.commit "20240101000000" "init",
   .outside (some "alter table t add c int;") [] [false, false, false, true],
   .commit "20240102000000" "add c",
   .outside (some "alter table t add c int;")
     [DirEntry.mk "20240103000000_x.sql" false "create table x(id int);",
      DirEntry.mk "20240104000000_y.sql" false "create table y(id int);"] [],
   .commit "20240105000000" "add c",
   .migrate]

/-- The sample project with the content of A.sql staged once more: its digest is
already a key of the ledger. -/
def sampleDuplicate : World :=
  { sampleProject with current := some "create table a(id int);" }

/-- A project whose only ledger record names a file that is not in the
migrations directory, with a change being staged. -/
def sampleMissing : World :=
  { current := some "alter table t add c int;",
    migrations := [DirEntry.mk "notes.txt" false "todo"],
    ledger := [Migration.mk (computeHash sampleSum256 "create table t(id int);") ""
      "20240101000000_init.sql"],
    execLog := [("create table t(id int);", true)], faults := [] }

/-! ## Effects of the environment primitives -/

@[simp] theorem tick_current (w : World) : (tick w).current = w.current := rfl
@[simp] theorem tick_migrations (w : World) : (tick w).migrations = w.migrations := rfl
@[simp] theorem tick_ledger (w : World) : (tick w).ledger = w.ledger := rfl
@[simp] theorem tick_execLog (w : World) : (tick w).execLog = w.execLog := rfl
@[simp] theorem tick_elsewhere (w : World) : (tick w).elsewhere = w.elsewhere := rfl
@[simp] theorem tick_dir (w : World) : (tick w).dir = w.dir := rfl

theorem readCurrent_some {w w1 : World} {c : String} (h : readCurrent w = (some c, w1)) :
    failing w = false ∧ w.current = some c ∧ w1 = tick w := by
  unfold readCurrent at h
  split at h <;> simp only [Prod.mk.injEq] at h <;> obtain ⟨h1, rfl⟩ := h <;> simp_all

theorem readCurrent_none {w w1 : World} (h : readCurrent w = (none, w1)) :
    w1 = tick w ∧ (failing w = true ∨ w.current = none) := by
  unfold readCurrent at h
  split at h <;> simp only [Prod.mk.injEq] at h <;> obtain ⟨h1, rfl⟩ := h <;> simp_all

theorem writeCurrent_true {w w1 : World} {c : String} (h : writeCurrent c w = (true, w1)) :
    failing w = false ∧ w1 = { tick w with current := some c } := by
  unfold writeCurrent at h
  split at h <;> simp only [Prod.mk.injEq] at h <;> obtain ⟨h1, rfl⟩ := h <;> simp_all

theorem writeCurrent_false {w w1 : World} {c : String} (h : writeCurrent c w = (false, w1)) :
    failing w = true ∧ w1 = tick w := by
  unfold writeCurrent at h
  split at h <;> simp only [Prod.mk.injEq] at h <;> obtain ⟨h1, rfl⟩ := h <;> simp_all

theorem osReadListedFile_some {w w1 : World} {n c : String}
    (h : osReadListedFile n w = (some c, w1)) :
    failing w = false ∧ readEntry n w.migrations = some c ∧ w1 = tick w := by
  unfold osReadListedFile at h
  split at h <;> simp only [Prod.mk.injEq] at h <;> obtain ⟨h1, rfl⟩ := h <;> simp_all

theorem osReadListedFile_none {w w1 : World} {n : String}
    (h : osReadListedFile n w = (none, w1)) :
    w1 = tick w ∧ (failing w = true ∨ readEntry n w.migrations = none) := by
  unfold osReadListedFile at h
  split at h <;> simp only [Prod.mk.injEq] at h <;> obtain ⟨h1, rfl⟩ := h <;> simp_all

theorem osReadFile_some {w w1 : World} {n c : String} (h : osReadFile n w = (some c, w1)) :
    failing w = false ∧ fileAt w n = some c ∧ w1 = tick w := by
  unfold osReadFile at h
  split at h <;> simp only [Prod.mk.injEq] at h <;> obtain ⟨h1, rfl⟩ := h <;> simp_all

theorem osReadFile_none {w w1 : World} {n : String} (h : osReadFile n w = (none, w1)) :
    w1 = tick w ∧ (failing w = true ∨ fileAt w n = none) := by
  unfold osReadFile at h
  split at h <;> simp only [Prod.mk.injEq] at h <;> obtain ⟨h1, rfl⟩ := h <;> simp_all

theorem osWriteFile_true {w w1 : World} {n c : String} (h : osWriteFile n c w = (true, w1)) :
    failing w = false ∧ writePlace c (tick w) (place w.dir n) = some w1 := by
  unfold osWriteFile at h
  split at h
  · simp only [Prod.mk.injEq] at h; obtain ⟨h1, rfl⟩ := h; simp_all
  · split at h <;> simp only [Prod.mk.injEq] at h <;> obtain ⟨h1, rfl⟩ := h <;> simp_all

theorem osWriteFile_false {w w1 : World} {n c : String} (h : osWriteFile n c w = (false, w1)) :
    w1 = tick w ∧ (failing w = true ∨ writePlace c (tick w) (place w.dir n) = none) := by
  unfold osWriteFile at h
  split at h
  · simp only [Prod.mk.injEq] at h; obtain ⟨h1, rfl⟩ := h; simp_all
  · split at h <;> simp only [Prod.mk.injEq] at h <;> obtain ⟨h1, rfl⟩ := h <;> simp_all

theorem osRemove_true {w w1 : World} {n : String} (h : osRemove n w = (true, w1)) :
    failing w = false ∧ removePlace (tick w) (place w.dir n) = some w1 := by
  unfold osRemove at h
  split at h
  · simp only [Prod.mk.injEq] at h; obtain ⟨h1, rfl⟩ := h; simp_all
  · split at h <;> simp only [Prod.mk.injEq] at h <;> obtain ⟨h1, rfl⟩ := h <;> simp_all

theorem osRemove_false {w w1 : World} {n : String} (h : osRemove n w = (false, w1)) :
    w1 = tick w ∧ (failing w = true ∨ removePlace (tick w) (place w.dir n) = none) := by
  unfold osRemove at h
  split at h
  · simp only [Prod.mk.injEq] at h; obtain ⟨h1, rfl⟩ := h; simp_all
  · split at h <;> simp only [Prod.mk.injEq] at h <;> obtain ⟨h1, rfl⟩ := h <;> simp_all

theorem osReadDir_some {w w1 : World} {es : List DirEntry} (h : osReadDir w = (some es, w1)) :
    failing w = false ∧ es = w.migrations.insertionSort entryLe ∧ w1 = tick w := by
  unfold osReadDir at h
  split at h <;> simp only [Prod.mk.injEq] at h <;> obtain ⟨h1, rfl⟩ := h <;> simp_all

theorem osReadDir_none {w w1 : World} (h : osReadDir w = (none, w1)) :
    failing w = true ∧ w1 = tick w := by
  unfold osReadDir at h
  split at h <;> simp only [Prod.mk.injEq] at h <;> obtain ⟨h1, rfl⟩ := h <;> simp_all

theorem dbExecute_true {w w1 : World} {q : String} (h : dbExecute q w = (true, w1)) :
    failing w = false ∧ w1 = { tick w with execLog := w.execLog ++ [(q, true)] } := by
  unfold dbExecute at h
  split at h <;> simp only [Prod.mk.injEq] at h <;> obtain ⟨h1, rfl⟩ := h <;> simp_all

theorem dbExecute_false {w w1 : World} {q : String} (h : dbExecute q w = (false, w1)) :
    failing w = true ∧ w1 = { tick w with execLog := w.execLog ++ [(q, false)] } := by
  unfold dbExecute at h
  split at h <;> simp only [Prod.mk.injEq] at h <;> obtain ⟨h1, rfl⟩ := h <;> simp_all

theorem GetAppliedMigrations_some {w w1 : World} {ms : List Migration}
    (h : GetAppliedMigrations w = (some ms, w1)) :
    failing w = false ∧ ms = w.ledger ∧ w1 = tick w := by
  unfold GetAppliedMigrations at h
  split at h <;> simp only [Prod.mk.injEq] at h <;> obtain ⟨h1, rfl⟩ := h <;> simp_all

theorem GetAppliedMigrations_none {w w1 : World} (h : GetAppliedMigrations w = (none, w1)) :
    failing w = true ∧ w1 = tick w := by
  unfold GetAppliedMigrations at h
  split at h <;> simp only [Prod.mk.injEq] at h <;> obtain ⟨h1, rfl⟩ := h <;> simp_all

theorem ApplyMigration_true {w w1 : World} {f hs p : String}
    (h : ApplyMigration f hs p w = (true, w1)) :
    failing w = false ∧ (∀ m ∈ w.ledger, m.Hash ≠ hs) ∧
      w1 = { tick w with ledger := w.ledger ++ [{ Hash := hs, PreviousHash := p, FileName := f }] } := by
  unfold ApplyMigration at h
  split at h
  · simp only [Prod.mk.injEq] at h; obtain ⟨h1, rfl⟩ := h; simp_all
  · split at h <;> simp only [Prod.mk.injEq] at h <;> obtain ⟨h1, rfl⟩ := h <;> simp_all

theorem ApplyMigration_false {w w1 : World} {f hs p : String}
    (h : ApplyMigration f hs p w = (false, w1)) :
    w1 = tick w ∧ (failing w = true ∨ ∃ m ∈ w.ledger, m.Hash = hs) := by
  unfold ApplyMigration at h
  split at h
  · simp only [Prod.mk.injEq] at h; obtain ⟨h1, rfl⟩ := h; simp_all
  · split at h <;> simp only [Prod.mk.injEq] at h <;> obtain ⟨h1, rfl⟩ := h <;> simp_all

theorem RemoveLastMigration_some {w w1 : World} {m : Migration}
    (h : RemoveLastMigration w = (some m, w1)) :
    failing w = false ∧ w.ledger.getLast? = some m ∧
      w1 = { tick w with ledger := w.ledger.filter (fun r => decide (r.Hash ≠ m.Hash)) } := by
  unfold RemoveLastMigration at h
  split at h
  · simp only [Prod.mk.injEq] at h; obtain ⟨h1, rfl⟩ := h; simp_all
  · split at h <;> simp only [Prod.mk.injEq] at h <;> obtain ⟨h1, rfl⟩ := h <;> simp_all

theorem RemoveLastMigration_none {w w1 : World} (h : RemoveLastMigration w = (none, w1)) :
    w1 = tick w ∧ (failing w = true ∨ w.ledger = []) := by
  unfold RemoveLastMigration at h
  split at h
  · simp only [Prod.mk.injEq] at h; obtain ⟨h1, rfl⟩ := h; simp_all
  · split at h <;> simp only [Prod.mk.injEq] at h <;> obtain ⟨h1, rfl⟩ := h <;> simp_all

/-! ## Directory entries -/

theorem writeEntry_read {n c : String} {es es1 : List DirEntry}
    (h : writeEntry n c es = some es1) : readEntry n es1 = some c := by
  induction es generalizing es1 with
  | nil =>
    simp only [writeEntry, Option.some.injEq] at h
    subst h
    simp [readEntry]
  | cons e rest ih =>
    simp only [writeEntry] at h
    split at h
    · split at h
      · simp at h
      · simp only [Option.some.injEq] at h
        subst h
        simp_all [readEntry]
    · cases hr : writeEntry n c rest with
      | none => simp [hr] at h
      | some r =>
        simp only [hr, Option.map_some', Option.some.injEq] at h
        subst h
        simp_all [readEntry]

theorem writeEntry_read_ne {n c k : String} {es es1 : List DirEntry}
    (h : writeEntry n c es = some es1) (hk : k ≠ n) : readEntry k es1 = readEntry k es := by
  induction es generalizing es1 with
  | nil =>
    simp only [writeEntry, Option.some.injEq] at h
    subst h
    simp [readEntry, Ne.symm hk]
  | cons e rest ih =>
    simp only [writeEntry] at h
    split at h
    · split at h
      · simp at h
      · simp only [Option.some.injEq] at h
        subst h
        rename_i he _
        simp [readEntry, he, Ne.symm hk]
    · cases hr : writeEntry n c rest with
      | none => simp [hr] at h
      | some r =>
        simp only [hr, Option.map_some', Option.some.injEq] at h
        subst h
        simp [readEntry, ih hr]

theorem writeEntry_mem {n c : String} {es es1 : List DirEntry}
    (h : writeEntry n c es = some es1) :
    ({ Name := n, IsDir := false, Content := c } : DirEntry) ∈ es1 := by
  induction es generalizing es1 with
  | nil =>
    simp only [writeEntry, Option.some.injEq] at h
    subst h
    simp
  | cons e rest ih =>
    simp only [writeEntry] at h
    split at h
    · split at h
      · simp at h
      · simp only [Option.some.injEq] at h
        subst h
        rename_i he hd
        cases e
        simp_all
    · cases hr : writeEntry n c rest with
      | none => simp [hr] at h
      | some r =>
        simp only [hr, Option.map_some', Option.some.injEq] at h
        subst h
        simp [ih hr]

theorem writeEntry_fresh {n c : String} {es : List DirEntry}
    (h : ∀ e ∈ es, e.Name ≠ n) :
    writeEntry n c es = some (es ++ [{ Name := n, IsDir := false, Content := c }]) := by
  induction es with
  | nil => rfl
  | cons e rest ih =>
    have h1 : e.Name ≠ n := h e (List.mem_cons_self _ _)
    have h2 : ∀ x ∈ rest, x.Name ≠ n := fun x hx => h x (List.mem_cons_of_mem _ hx)
    simp [writeEntry, h1, ih h2]

/-! ## Places -/

theorem splitSlash_of_not_mem :
    ∀ (cs acc : List Char), '/' ∉ cs → splitSlash acc cs = [String.mk (acc.reverse ++ cs)] := by
  intro cs
  induction cs with
  | nil => intro acc _; simp [splitSlash]
  | cons c rest ih =>
    intro acc h
    have hc : c ≠ '/' := fun hc => h (by simp [hc])
    have hr : '/' ∉ rest := fun hr => h (List.mem_cons_of_mem _ hr)
    simp [splitSlash, hc, ih (c :: acc) hr]

theorem pathElements_noSlash {name : String} (h : noSlash name) : pathElements name = [name] := by
  unfold pathElements
  rw [splitSlash_of_not_mem name.data [] h]
  simp

/-- A name that is one path element names the entry of that name. -/
theorem place_of_noSlash (dir : List String) {name : String} (h : noSlash name)
    (h0 : name ≠ "") (h1 : name ≠ ".") (h2 : name ≠ "..") : place dir name = .entry name := by
  have hw : walk (dir ++ ["migrations"]) (pathElements name) = dir ++ ["migrations"] ++ [name] := by
    rw [pathElements_noSlash h]
    simp [walk, h0, h1, h2]
  unfold place
  rw [hw]
  have c1 : ¬ (dir ++ ["migrations"] ++ [name] = dir ++ ["current.sql"]) := by
    intro hc
    have := congrArg List.length hc
    simp at this
  have c2 : (dir ++ ["migrations"] ++ [name]).isPrefixOf (dir ++ ["migrations"]) = false := by
    rw [Bool.eq_false_iff]
    intro hc
    rw [List.isPrefixOf_iff_prefix] at hc
    have := hc.length_le
    simp at this
  simp only [c1, c2, if_false, Bool.false_eq_true, List.dropLast_concat, if_true]
  simp

theorem migrationFileName_length (ts N : String) : 5 ≤ (migrationFileName ts N).length := by
  unfold migrationFileName
  simp only [String.length_append]
  have : ".sql".length = 4 := rfl
  have : "_".length = 1 := rfl
  omega

/-- A generated file name without separator names the entry of that name. -/
theorem place_migrationFileName (dir : List String) {ts N : String}
    (h : noSlash (migrationFileName ts N)) :
    place dir (migrationFileName ts N) = .entry (migrationFileName ts N) := by
  have hl := migrationFileName_length ts N
  apply place_of_noSlash dir h
  · intro hc; rw [hc] at hl; exact absurd hl (by decide)
  · intro hc; rw [hc] at hl; exact absurd hl (by decide)
  · intro hc; rw [hc] at hl; exact absurd hl (by decide)

/-- A timestamp and a name without path separator give a file name without one:
replacing spaces brings in no separator. -/
theorem noSlash_migrationFileName {ts N : String} (hts : noSlash ts) (hN : noSlash N) :
    noSlash (migrationFileName ts N) := by
  unfold noSlash at *
  unfold migrationFileName sanitize
  simp only [String.data_append, List.mem_append, List.mem_map, not_or, not_exists, not_and]
  refine ⟨⟨⟨hts, by decide⟩, ?_⟩, by decide⟩
  intro c hc
  by_cases hsp : c = ' '
  · simp [hsp]
  · simp only [hsp, if_false]
    intro h
    exact hN (h ▸ hc)

theorem writePlace_frame {c : String} {w w1 : World} {p : Place}
    (h : writePlace c w p = some w1) :
    w1.ledger = w.ledger ∧ w1.execLog = w.execLog ∧ w1.faults = w.faults ∧ w1.dir = w.dir := by
  cases p with
  | entry n =>
    simp only [writePlace, Option.map_eq_some'] at h
    obtain ⟨es, -, rfl⟩ := h
    exact ⟨rfl, rfl, rfl, rfl⟩
  | staging =>
    simp only [writePlace, Option.some.injEq] at h
    subst h
    exact ⟨rfl, rfl, rfl, rfl⟩
  | directory => simp [writePlace] at h
  | other q =>
    simp only [writePlace, Option.some.injEq] at h
    subst h
    exact ⟨rfl, rfl, rfl, rfl⟩

/-- Writing a file changes the staging buffer only when the file is the buffer. -/
theorem writePlace_current {c : String} {w w1 : World} {p : Place}
    (h : writePlace c w p = some w1) :
    w1.current = w.current ∨ w1.current = some c := by
  cases p with
  | entry n =>
    simp only [writePlace, Option.map_eq_some'] at h
    obtain ⟨es, -, rfl⟩ := h
    exact Or.inl rfl
  | staging =>
    simp only [writePlace, Option.some.injEq] at h
    subst h
    exact Or.inr rfl
  | directory => simp [writePlace] at h
  | other q =>
    simp only [writePlace, Option.some.injEq] at h
    subst h
    exact Or.inl rfl

theorem lookupPath_storePath (q : List String) (c : String) :
    ∀ l : List (List String × String), lookupPath q (storePath q c l) = some c := by
  intro l
  induction l with
  | nil => simp [storePath, lookupPath]
  | cons x rest ih =>
    obtain ⟨r, d⟩ := x
    by_cases hr : r = q
    · simp [storePath, lookupPath, hr]
    · simp [storePath, lookupPath, hr, ih]

/-- The file just written reads back. -/
theorem writePlace_read {c : String} {w w1 : World} {p : Place}
    (h : writePlace c w p = some w1) : readPlace w1 p = some c := by
  cases p with
  | entry n =>
    simp only [writePlace, Option.map_eq_some'] at h
    obtain ⟨es, hes, rfl⟩ := h
    exact writeEntry_read hes
  | staging =>
    simp only [writePlace, Option.some.injEq] at h
    subst h
    rfl
  | directory => simp [writePlace] at h
  | other q =>
    simp only [writePlace, Option.some.injEq] at h
    subst h
    exact lookupPath_storePath q c _

theorem writePlace_entry {c n : String} {w w1 : World}
    (h : writePlace c w (.entry n) = some w1) :
    ∃ es, writeEntry n c w.migrations = some es ∧ w1 = { w with migrations := es } := by
  simp only [writePlace, Option.map_eq_some'] at h
  obtain ⟨es, hes, rfl⟩ := h
  exact ⟨es, hes, rfl⟩

theorem removePlace_frame {w w1 : World} {p : Place} (h : removePlace w p = some w1) :
    w1.ledger = w.ledger ∧ w1.execLog = w.execLog ∧ w1.faults = w.faults ∧ w1.dir = w.dir := by
  cases p with
  | entry n =>
    simp only [removePlace, Option.map_eq_some'] at h
    obtain ⟨es, -, rfl⟩ := h
    exact ⟨rfl, rfl, rfl, rfl⟩
  | staging =>
    simp only [removePlace] at h
    split at h
    · simp only [Option.some.injEq] at h
      subst h
      exact ⟨rfl, rfl, rfl, rfl⟩
    · simp at h
  | directory => simp [removePlace] at h
  | other q =>
    simp only [removePlace] at h
    split at h
    · simp only [Option.some.injEq] at h
      subst h
      exact ⟨rfl, rfl, rfl, rfl⟩
    · simp at h

theorem removePlace_entry {n : String} {w w1 : World}
    (h : removePlace w (.entry n) = some w1) :
    w1 = { w with migrations := w.migrations.filter (fun e => decide (e.Name ≠ n)) } := by
  simp only [removePlace, Option.map_eq_some'] at h
  obtain ⟨es, hes, rfl⟩ := h
  unfold removeEntry at hes
  split at hes
  · rw [← Option.some.inj hes]
  · simp at hes

/-! ## Commit -/

theorem writePlace_tick (c : String) (w : World) (p : Place) :
    writePlace c (tick w) p = (writePlace c w p).map tick := by
  cases p with
  | entry n =>
    simp only [writePlace, tick_migrations]
    cases writeEntry n c w.migrations <;> rfl
  | staging => rfl
  | directory => rfl
  | other q => rfl

theorem removePlace_tick (w : World) (p : Place) :
    removePlace (tick w) p = (removePlace w p).map tick := by
  cases p with
  | entry n =>
    simp only [removePlace, tick_migrations]
    cases removeEntry n w.migrations <;> rfl
  | staging =>
    simp only [removePlace, tick_current]
    split <;> rfl
  | directory => rfl
  | other q =>
    simp only [removePlace, tick_elsewhere]
    split <;> rfl

theorem readPlace_congr {w v : World} (p : Place) (h1 : v.current = w.current)
    (h2 : v.migrations = w.migrations) (h3 : v.elsewhere = w.elsewhere) :
    readPlace v p = readPlace w p := by
  cases p <;> simp [readPlace, h1, h2, h3]

theorem fileAt_congr {w v : World} (n : String) (h1 : v.current = w.current)
    (h2 : v.migrations = w.migrations) (h3 : v.elsewhere = w.elsewhere) (h4 : v.dir = w.dir) :
    fileAt v n = fileAt w n := by
  unfold fileAt
  rw [h4]
  exact readPlace_congr _ h1 h2 h3

/-- What a successful Commit has done, step by step. -/
theorem Commit_ok {sum256 : String → List Nat} {ts N : String} {w w1 : World}
    (h : Commit sum256 ts N w = (.ok (), w1)) :
    ∃ C wm, w.current = some C ∧ C.length ≠ 0 ∧
      writePlace C w (place w.dir (migrationFileName ts N)) = some wm ∧
      (∀ m ∈ w.ledger, m.Hash ≠ computeHash sum256 C) ∧
      w1.current = some "" ∧ w1.migrations = wm.migrations ∧ w1.elsewhere = wm.elsewhere ∧
      w1.ledger = w.ledger ++ [Migration.mk (computeHash sum256 C) (lastHashOf w.ledger)
        (migrationFileName ts N)] ∧
      w1.execLog = w.execLog ++ [(C, true)] ∧
      w1.faults = w.faults.drop 6 ∧ w1.dir = w.dir := by
  unfold Commit at h
  split at h
  · simp at h
  · rename_i content wa hrc
    obtain ⟨-, hcur, rfl⟩ := readCurrent_some hrc
    split at h
    · simp at h
    · rename_i hlen
      simp only at h
      split at h
      · simp at h
      · rename_i ms wb hg
        obtain ⟨-, rfl, rfl⟩ := GetAppliedMigrations_some hg
        split at h
        · simp at h
        · rename_i wc hw
          obtain ⟨-, hwp⟩ := osWriteFile_true hw
          rw [writePlace_tick, writePlace_tick, writePlace_tick] at hwp
          simp only [Option.map_map, Option.map_eq_some', tick_dir] at hwp
          obtain ⟨wm, hwm, rfl⟩ := hwp
          obtain ⟨f1, f2, f3, f4⟩ := writePlace_frame hwm
          split at h
          · simp at h
          · rename_i wd hx
            obtain ⟨-, rfl⟩ := dbExecute_true hx
            split at h
            · simp at h
            · rename_i we ha
              obtain ⟨-, hfresh, rfl⟩ := ApplyMigration_true ha
              split at h
              · simp at h
              · rename_i wf hwc
                obtain ⟨-, rfl⟩ := writeCurrent_true hwc
                simp only [Prod.mk.injEq, true_and] at h
                subst h
                refine ⟨content, wm, hcur, hlen, hwm, ?_, rfl, rfl, rfl, ?_, ?_, ?_, ?_⟩
                · intro m hm
                  apply hfresh
                  simpa [f1] using hm
                · simp [f1]
                · simp [f2]
                · simp [tick, f3, ← List.drop_one, List.drop_drop]
                · simp [f4]

/-- A successful Commit under a generated file name without path separator. -/
theorem Commit_ok_entry {sum256 : String → List Nat} {ts N : String} {w w1 : World}
    (hplain : noSlash (migrationFileName ts N))
    (h : Commit sum256 ts N w = (.ok (), w1)) :
    ∃ C es, w.current = some C ∧ C.length ≠ 0 ∧
      writeEntry (migrationFileName ts N) C w.migrations = some es ∧
      (∀ m ∈ w.ledger, m.Hash ≠ computeHash sum256 C) ∧
      w1.current = some "" ∧ w1.migrations = es ∧ w1.elsewhere = w.elsewhere ∧
      w1.ledger = w.ledger ++ [Migration.mk (computeHash sum256 C) (lastHashOf w.ledger)
        (migrationFileName ts N)] ∧
      w1.execLog = w.execLog ++ [(C, true)] := by
  obtain ⟨C, wm, h1, h2, h3, h4, h5, h6, h7, h8, h9, -, -⟩ := Commit_ok h
  rw [place_migrationFileName w.dir hplain] at h3
  obtain ⟨es, hes, rfl⟩ := writePlace_entry h3
  exact ⟨C, es, h1, h2, hes, h4, h5, h6, h7, h8, h9⟩

theorem length_ne_zero_ne_empty {s : String} (h : s.length ≠ 0) : s ≠ "" := by
  rintro rfl
  exact h rfl

theorem length_zero_of_ne {s : String} (h : s ≠ "") : s.length ≠ 0 := by
  intro h0
  apply h
  cases s with
  | mk d =>
    have : d = [] := List.length_eq_zero.mp h0
    subst this
    rfl

/-- For a generated file name without path separator, a successful Commit of
staging content C leaves a migration file of that name holding exactly C
(appended to the directory when no entry had that name, every other file
untouched), appends to the ledger exactly one record with that file name, hash
computeHash(C) and previous hash the hash of the last earlier record (the empty
string when there was none), executes C exactly once, and empties the staging
buffer. -/
theorem Commit_success_of_noSlash (sum256 : String → List Nat) (ts N C : String) (w w1 : World)
    (hplain : noSlash (migrationFileName ts N))
    (hC : w.current = some C) (h : Commit sum256 ts N w = (.ok (), w1)) :
    C ≠ "" ∧
    migrationFileName ts N =
      ts ++ "_" ++ String.mk (N.data.map (fun c => if c = ' ' then '_' else c)) ++ ".sql" ∧
    DirEntry.mk (migrationFileName ts N) false C ∈ w1.migrations ∧
    readEntry (migrationFileName ts N) w1.migrations = some C ∧
    (∀ k, k ≠ migrationFileName ts N → readEntry k w1.migrations = readEntry k w.migrations) ∧
    ((∀ e ∈ w.migrations, e.Name ≠ migrationFileName ts N) →
      w1.migrations = w.migrations ++ [DirEntry.mk (migrationFileName ts N) false C]) ∧
    w1.ledger = w.ledger ++ [Migration.mk (computeHash sum256 C)
      (match w.ledger.getLast? with
        | none => ""
        | some m => m.Hash)
      (migrationFileName ts N)] ∧
    w1.execLog = w.execLog ++ [(C, true)] ∧
    w1.current = some "" := by
  obtain ⟨C1, es, hcur, hlen, hes, -, hc1, hm1, -, hl1, hx1⟩ := Commit_ok_entry hplain h
  have hCC : C1 = C := by
    rw [hC] at hcur
    exact (Option.some.inj hcur).symm
  subst hCC
  refine ⟨length_ne_zero_ne_empty hlen, rfl, ?_, ?_, ?_, ?_, ?_, hx1, hc1⟩
  · rw [hm1]; exact writeEntry_mem hes
  · rw [hm1]; exact writeEntry_read hes
  · intro k hk; rw [hm1]; exact writeEntry_read_ne hes hk
  · intro hfresh
    rw [hm1]
    have := writeEntry_fresh (c := C1) hfresh
    rw [this] at hes
    exact (Option.some.inj hes).symm
  · rw [hl1]; rfl

/-- C1 does not hold of the code for every name.  Commit replaces only spaces in
the name and hands filepath.Join(m.MigrationsDir, fileName) to os.WriteFile; for
the name "x/../../current" the joined path is current.sql itself.  The call
succeeds, the ledger gets a record under the file name
"20240101000000_x/../../current.sql", and the migrations directory holds no new
file: the path of that record names the staging buffer, which Commit has
emptied, so the committed content is in no file at all. -/
theorem C1_commit_name_leaves_directory :
    migrationFileName "20240101000000" "x/../../current" =
      "20240101000000_x/../../current.sql" ∧
    place sampleStaged.dir (migrationFileName "20240101000000" "x/../../current") = .staging ∧
    Commit sampleSum256 "20240101000000" "x/../../current" sampleStaged =
      (.ok (),
        { current := some "",
          migrations := [],
          ledger := [Migration.mk (computeHash sampleSum256 "create table t(id int);") ""
            "20240101000000_x/../../current.sql"],
          execLog := [("create table t(id int);", true)],
          faults := [] }) ∧
    fileAt (Commit sampleSum256 "20240101000000" "x/../../current" sampleStaged).2
      "20240101000000_x/../../current.sql" = some "" := by
  decide

/-- C6: with an empty staging buffer Commit fails, with the nothing-to-commit
error whenever the buffer could be read, and leaves the ledger, the migration
files, the staging buffer and the executed SQL as they were. -/
theorem C6_commit_empty_rejected (sum256 : String → List Nat) (ts N : String) (w : World)
    (hC : w.current = some "") :
    (Commit sum256 ts N w).1 =
      (if failing w then .error .readCurrent else .error .nothingToCommit) ∧
    (Commit sum256 ts N w).2.ledger = w.ledger ∧
    (Commit sum256 ts N w).2.migrations = w.migrations ∧
    (Commit sum256 ts N w).2.current = some "" ∧
    (Commit sum256 ts N w).2.execLog = w.execLog := by
  unfold Commit readCurrent
  cases hf : failing w <;> simp [hC]

/-- Witness of C6: an empty staging buffer in a project that has one migration. -/
theorem C6_commit_empty_rejected_witness :
    (Commit sampleSum256 "20240101000000" "init"
      { sampleStaged with current := some "" }).1 = .error .nothingToCommit :=
  (C6_commit_empty_rejected sampleSum256 "20240101000000" "init"
    { sampleStaged with current := some "" } rfl).1

/-- C7, as stated, fails for Migrator.Commit: called with the empty name on a
staged change it succeeds, writes the file, executes the SQL and records a row. -/
theorem C7_counterexample :
    Commit sampleSum256 "20240101000000" "" sampleStaged =
      (.ok (),
        { current := some "",
          migrations := [DirEntry.mk "20240101000000_.sql" false "create table t(id int);"],
          ledger := [Migration.mk (computeHash sampleSum256 "create table t(id int);") ""
            "20240101000000_.sql"],
          execLog := [("create table t(id int);", true)],
          faults := [] }) := by
  decide

/-- C7, amended: the commit command rejects the empty name with "migration name
is required" and touches nothing: no migrator is created, nothing is read,
written, executed or recorded, and no scheduled outcome is consumed. -/
theorem C7_commitCmd_empty_name (sum256 : String → List Nat) (ts : String) (w : World) :
    commitCmdRunE sum256 ts "" w = (.error .nameRequired, w) := by
  simp [commitCmdRunE]

/-- C8: Apply never changes the ledger, the migration files or the staging
buffer, whatever its outcome.  When the buffer is read and is empty, Apply
succeeds and executes nothing.  When it is read and holds S, non-empty, Apply
makes exactly one Execute call, with S, and returns the outcome of that call;
a second Apply on the unchanged buffer that reads it again issues the same
request S once more. -/
theorem C8_apply_frame (w : World) :
    (Apply w).2.ledger = w.ledger ∧ (Apply w).2.migrations = w.migrations ∧
    (Apply w).2.current = w.current ∧
    (failing w = false → w.current = some "" →
      (Apply w).1 = .ok () ∧ (Apply w).2.execLog = w.execLog) ∧
    (∀ S, failing w = false → w.current = some S → S ≠ "" →
      (Apply w).1 = (if (dbExecute S (tick w)).1 then .ok () else .error .executeQuery) ∧
      (Apply w).2 = (dbExecute S (tick w)).2 ∧
      (Apply w).2.execLog = w.execLog ++ [(S, (dbExecute S (tick w)).1)] ∧
      (failing (Apply w).2 = false →
        (Apply (Apply w).2).2.execLog =
          w.execLog ++ [(S, (dbExecute S (tick w)).1),
            (S, (dbExecute S (tick (Apply w).2)).1)])) := by
  have key : ∀ (v : World) (S : String), failing v = false → v.current = some S → S ≠ "" →
      (Apply v).1 = (if (dbExecute S (tick v)).1 then .ok () else .error .executeQuery) ∧
      (Apply v).2 = (dbExecute S (tick v)).2 ∧
      (Apply v).2.execLog = v.execLog ++ [(S, (dbExecute S (tick v)).1)] := by
    intro v S hf hS hne
    have hlen := length_zero_of_ne hne
    unfold Apply readCurrent dbExecute
    cases hf2 : failing (tick v) <;> simp [hf, hS, hlen, hf2]
  have frame : ∀ v : World, (Apply v).2.ledger = v.ledger ∧
      (Apply v).2.migrations = v.migrations ∧ (Apply v).2.current = v.current := by
    intro v
    unfold Apply readCurrent dbExecute
    cases hf : failing v
    · cases hc : v.current with
      | none => simp [hc]
      | some S =>
        by_cases hl : S.length = 0
        · simp [hl, hc]
        · cases hf2 : failing (tick v) <;> simp [hl, hf2, hc]
    · simp
  refine ⟨(frame w).1, (frame w).2.1, (frame w).2.2, ?_, ?_⟩
  · intro hf hS
    unfold Apply readCurrent
    simp [hf, hS]
  · intro S hf hS hne
    obtain ⟨k1, k2, k3⟩ := key w S hf hS hne
    refine ⟨k1, k2, k3, ?_⟩
    intro hf2
    have hS2 : (Apply w).2.current = some S := by rw [(frame w).2.2]; exact hS
    obtain ⟨-, -, k6⟩ := key (Apply w).2 S hf2 hS2 hne
    rw [k6, k3]
    simp

/-- Witness of C8: two Apply calls in a row on a staged change. -/
theorem C8_apply_frame_witness :
    (Apply (Apply sampleStaged).2).2.execLog =
      [("create table t(id int);", true), ("create table t(id int);", true)] :=
  ((C8_apply_frame sampleStaged).2.2.2.2 "create table t(id int);" rfl rfl (by decide)).2.2.2 rfl

/-! ## Uncommit -/

/-- What a successful Uncommit has done, step by step; the last part is for a
record whose file name names an entry of the migrations directory. -/
theorem Uncommit_ok {w w1 : World} (h : Uncommit w = (.ok (), w1)) :
    ∃ m content S, w.ledger.getLast? = some m ∧
      fileAt w m.FileName = some content ∧ w.current = some S ∧
      w1.ledger = w.ledger.filter (fun r => decide (r.Hash ≠ m.Hash)) ∧
      w1.execLog = w.execLog ∧ w1.faults = w.faults.drop 5 ∧ w1.dir = w.dir ∧
      (∀ n, place w.dir m.FileName = .entry n →
        w1.current = some (content ++ S) ∧
        w1.migrations = w.migrations.filter (fun e => decide (e.Name ≠ n)) ∧
        w1.elsewhere = w.elsewhere) := by
  unfold Uncommit at h
  split at h
  · simp at h
  · rename_i m wa hr
    obtain ⟨-, hlast, rfl⟩ := RemoveLastMigration_some hr
    split at h
    · simp at h
    · rename_i content wb hrf
      obtain ⟨-, hread, rfl⟩ := osReadFile_some hrf
      have hread1 : fileAt w m.FileName = some content := by
        rw [← hread]
        exact (fileAt_congr m.FileName rfl rfl rfl rfl).symm
      split at h
      · simp at h
      · rename_i S wc hrc
        obtain ⟨-, hcur, rfl⟩ := readCurrent_some hrc
        split at h
        · simp at h
        · rename_i wd hwc
          obtain ⟨-, rfl⟩ := writeCurrent_true hwc
          split at h
          · simp at h
          · rename_i we hrm
            obtain ⟨-, hrp⟩ := osRemove_true hrm
            simp only [Prod.mk.injEq, true_and] at h
            subst h
            obtain ⟨f1, f2, f3, f4⟩ := removePlace_frame hrp
            refine ⟨m, content, S, hlast, hread1, hcur, ?_, ?_, ?_, ?_, ?_⟩
            · rw [f1]; rfl
            · rw [f2]; rfl
            · rw [f3]; simp [tick, ← List.drop_one, List.drop_drop]
            · rw [f4]; rfl
            · intro n hn
              have hrp2 : removePlace _ (place w.dir m.FileName) = some we := hrp
              rw [hn] at hrp2
              have hwe := removePlace_entry hrp2
              subst hwe
              exact ⟨rfl, rfl, rfl⟩

/-- C2, as stated, fails when the migrations directory already holds a file under
the name Commit generates: Commit overwrites it, Uncommit deletes it, and the
directory ends without a file it had before. -/
theorem C2_counterexample :
    (Commit sampleSum256 "20240101000000" "init" sampleOccupied).1 = .ok () ∧
    (Uncommit (Commit sampleSum256 "20240101000000" "init" sampleOccupied).2).1 = .ok () ∧
    (Uncommit (Commit sampleSum256 "20240101000000" "init" sampleOccupied).2).2.migrations
      ≠ sampleOccupied.migrations := by
  decide

/-- C2, amended: when the file name Commit generates has no path separator and
no entry of the migrations directory has that name, a successful Commit of
content C followed by a successful Uncommit, run when the staging buffer holds S
(S is empty right after Commit), leaves the staging buffer equal to C followed by
S, the ledger as it was before Commit and the migrations directory as it was
before Commit, touches no file elsewhere and executes no further SQL. -/
theorem C2_commit_uncommit_roundtrip (sum256 : String → List Nat) (ts N C S : String)
    (w w1 v w2 : World) (hC : w.current = some C)
    (hplain : noSlash (migrationFileName ts N))
    (hfresh : ∀ e ∈ w.migrations, e.Name ≠ migrationFileName ts N)
    (h1 : Commit sum256 ts N w = (.ok (), w1))
    (hv : v.current = some S ∧ v.ledger = w1.ledger ∧ v.migrations = w1.migrations)
    (h2 : Uncommit v = (.ok (), w2)) :
    w1.current = some "" ∧
    w2.current = some (C ++ S) ∧ w2.ledger = w.ledger ∧ w2.migrations = w.migrations ∧
    w1.elsewhere = w.elsewhere ∧ w2.elsewhere = v.elsewhere ∧
    w2.execLog = v.execLog := by
  obtain ⟨hvc, hvl, hvm⟩ := hv
  obtain ⟨m, content, S1, hlast, hread, hcur, u2, u4, -, -, hentry⟩ := Uncommit_ok h2
  obtain ⟨C1, es, hcur1, -, hes, hpk, c9, c6, celse, c7, -⟩ := Commit_ok_entry hplain h1
  have hCC : C1 = C := by
    rw [hC] at hcur1
    exact (Option.some.inj hcur1).symm
  subst hCC
  have hm : m = Migration.mk (computeHash sum256 C1) (lastHashOf w.ledger)
      (migrationFileName ts N) := by
    rw [hvl, c7, List.getLast?_append] at hlast
    simpa using hlast.symm
  have hS : S1 = S := by
    rw [hvc] at hcur
    exact (Option.some.inj hcur).symm
  have hplace : place v.dir m.FileName = .entry (migrationFileName ts N) := by
    rw [hm]
    exact place_migrationFileName v.dir hplain
  have hcontent : content = C1 := by
    unfold fileAt at hread
    rw [hplace] at hread
    simp only [readPlace] at hread
    rw [hvm, c6, writeEntry_read hes] at hread
    exact (Option.some.inj hread).symm
  subst hS hcontent
  obtain ⟨u1, u3, u5⟩ := hentry _ hplace
  refine ⟨c9, u1, ?_, ?_, celse, u5, u4⟩
  · have hkeep : List.filter (fun r => decide (r.Hash ≠ computeHash sum256 content)) w.ledger
        = w.ledger := by
      rw [List.filter_eq_self]
      intro a ha
      simpa using hpk a ha
    rw [u2, hvl, c7, hm, List.filter_append, hkeep]
    simp
  · have hkeep : List.filter (fun e => decide (e.Name ≠ migrationFileName ts N)) w.migrations
        = w.migrations := by
      rw [List.filter_eq_self]
      intro a ha
      simpa using hfresh a ha
    rw [writeEntry_fresh hfresh] at hes
    rw [u3, hvm, c6, ← Option.some.inj hes, List.filter_append, hkeep]
    simp

/-- Witness of C2: the example scenario of the specification. -/
theorem C2_commit_uncommit_roundtrip_witness :
    (Uncommit (Commit sampleSum256 "20240101000000" "init" sampleStaged).2).2.current =
      some ("create table t(id int);" ++ "") :=
  (C2_commit_uncommit_roundtrip sampleSum256 "20240101000000" "init" "create table t(id int);" ""
    sampleStaged (Commit sampleSum256 "20240101000000" "init" sampleStaged).2
    (Commit sampleSum256 "20240101000000" "init" sampleStaged).2
    (Uncommit (Commit sampleSum256 "20240101000000" "init" sampleStaged).2).2
    rfl (by decide) (by decide) (by decide) (by decide) (by decide)).2.1

/-! ## The file catalog -/

theorem bytesLe_total (a b : List Char) : bytesLe a b = true ∨ bytesLe b a = true := by
  induction a generalizing b with
  | nil => left; rfl
  | cons x xs ih =>
    cases b with
    | nil => right; rfl
    | cons y ys =>
      simp only [bytesLe, Bool.or_eq_true, Bool.and_eq_true, decide_eq_true_eq]
      rcases Nat.lt_trichotomy x.toNat y.toNat with hlt | heq | hgt
      · left; left; exact hlt
      · rcases ih ys with h | h
        · left; right; exact ⟨heq, h⟩
        · right; right; exact ⟨heq.symm, h⟩
      · right; left; exact hgt

theorem bytesLe_trans (a b c : List Char) (hab : bytesLe a b = true) (hbc : bytesLe b c = true) :
    bytesLe a c = true := by
  induction a generalizing b c with
  | nil => rfl
  | cons x xs ih =>
    cases b with
    | nil => simp [bytesLe] at hab
    | cons y ys =>
      cases c with
      | nil => simp [bytesLe] at hbc
      | cons z zs =>
        simp only [bytesLe, Bool.or_eq_true, Bool.and_eq_true, decide_eq_true_eq] at hab hbc ⊢
        rcases hab with h1 | ⟨h1, h1r⟩ <;> rcases hbc with h2 | ⟨h2, h2r⟩
        · left; omega
        · left; omega
        · left; omega
        · right; exact ⟨by omega, ih ys zs h1r h2r⟩

/-- The list getFiles computes from the entries of the directory. -/
theorem getFiles_eq (w : World) :
    getFiles w = (if failing w then none else
      some (((w.migrations.insertionSort entryLe).filter
        (fun e => !e.IsDir && ".sql".data.isSuffixOf e.Name.data)).map DirEntry.Name), tick w) := by
  unfold getFiles osReadDir
  cases failing w <;> simp

theorem mem_catalog {es : List DirEntry} {n : String} :
    n ∈ ((es.insertionSort entryLe).filter
        (fun e => !e.IsDir && ".sql".data.isSuffixOf e.Name.data)).map DirEntry.Name ↔
      ∃ e ∈ es, e.Name = n ∧ e.IsDir = false ∧ ∃ stem : String, n = stem ++ ".sql" := by
  simp only [List.mem_map, List.mem_filter, List.mem_insertionSort, Bool.and_eq_true,
    Bool.not_eq_true', List.isSuffixOf_iff_suffix]
  constructor
  · rintro ⟨e, ⟨he, hd, t, ht⟩, rfl⟩
    refine ⟨e, he, rfl, hd, String.mk t, ?_⟩
    apply String.ext
    simp [String.data_append, ht]
  · rintro ⟨e, he, rfl, hd, stem, hs⟩
    refine ⟨e, ⟨he, hd, stem.data, ?_⟩, rfl⟩
    rw [hs]
    simp [String.data_append]

theorem catalog_sorted (es : List DirEntry) :
    List.Sorted nameLe (((es.insertionSort entryLe).filter
        (fun e => !e.IsDir && ".sql".data.isSuffixOf e.Name.data)).map DirEntry.Name) := by
  have h := (@List.sorted_insertionSort DirEntry entryLe _
    ⟨fun a b => bytesLe_total a.Name.data b.Name.data⟩
    ⟨fun a b c => bytesLe_trans a.Name.data b.Name.data c.Name.data⟩ es).filter
    (fun e => !e.IsDir && ".sql".data.isSuffixOf e.Name.data)
  unfold List.Sorted at h ⊢
  rw [List.pairwise_map]
  exact h

theorem catalog_nodup {es : List DirEntry} (h : (es.map DirEntry.Name).Nodup) :
    (((es.insertionSort entryLe).filter
        (fun e => !e.IsDir && ".sql".data.isSuffixOf e.Name.data)).map DirEntry.Name).Nodup := by
  have hp : ((es.insertionSort entryLe).map DirEntry.Name).Nodup :=
    ((List.perm_insertionSort entryLe es).map DirEntry.Name).nodup_iff.mpr h
  exact hp.sublist ((List.filter_sublist _).map DirEntry.Name)

/-- C9: when the directory can be listed, getFiles returns a list that holds a
name exactly when it is the name of a non-directory entry ending in ".sql", holds
no name twice (file names in a directory are distinct), and is in ascending
lexicographic order. -/
theorem C9_getFiles_sorted_catalog (w : World) (hok : failing w = false)
    (hdistinct : (w.migrations.map DirEntry.Name).Nodup) :
    ∃ fs, (getFiles w).1 = some fs ∧
      (∀ n, n ∈ fs ↔
        ∃ e ∈ w.migrations, e.Name = n ∧ e.IsDir = false ∧ ∃ stem : String, n = stem ++ ".sql") ∧
      fs.Nodup ∧
      List.Sorted (fun a b => bytesLe a.data b.data = true) fs := by
  refine ⟨_, ?_, fun n => mem_catalog, catalog_nodup hdistinct, catalog_sorted w.migrations⟩
  rw [getFiles_eq, hok]
  rfl

/-- Witness of C9: a directory with two migration files out of order, a text
file and a subdirectory whose name ends in ".sql". -/
theorem C9_getFiles_sorted_catalog_witness :
    failing sampleProject = false ∧ (sampleProject.migrations.map DirEntry.Name).Nodup ∧
    ∃ fs, (getFiles sampleProject).1 = some fs ∧
      (∀ n, n ∈ fs ↔ ∃ e ∈ sampleProject.migrations,
        e.Name = n ∧ e.IsDir = false ∧ ∃ stem : String, n = stem ++ ".sql") ∧
      fs.Nodup ∧
      List.Sorted (fun a b => bytesLe a.data b.data = true) fs :=
  ⟨rfl, by decide, C9_getFiles_sorted_catalog sampleProject rfl (by decide)⟩

/-! ## Migrate -/

theorem unrecorded_cons_applied {applied rest : List String} {file : String}
    (h : file ∈ applied) : unrecorded applied (file :: rest) = unrecorded applied rest := by
  simp [unrecorded, h]

theorem unrecorded_cons_new {applied rest : List String} {file : String}
    (h : file ∉ applied) :
    unrecorded applied (file :: rest) = file :: unrecorded applied rest := by
  simp [unrecorded, h]

/-- A successful pass of the loop over `files`. -/
theorem migrateLoop_ok (sum256 : String → List Nat) (applied : List String) :
    ∀ (files : List String) (lastHash : String) (count : Nat) (w w1 : World) (n : Nat),
      migrateLoop sum256 applied files lastHash count w = (.ok n, w1) →
      ∃ contents : List String,
        (unrecorded applied files).map (fun f => readEntry f w.migrations) = contents.map some ∧
        w1.ledger = w.ledger ++ chainRecords sum256 lastHash ((unrecorded applied files).zip contents) ∧
        w1.execLog = w.execLog ++ contents.map (fun c => (c, true)) ∧
        n = count + (unrecorded applied files).length ∧
        w1.migrations = w.migrations ∧ w1.current = w.current := by
  intro files
  induction files with
  | nil =>
    intro lastHash count w w1 n h
    simp only [migrateLoop, Prod.mk.injEq, Except.ok.injEq] at h
    obtain ⟨rfl, rfl⟩ := h
    exact ⟨[], by simp [unrecorded, chainRecords]⟩
  | cons file rest ih =>
    intro lastHash count w w1 n h
    by_cases hmem : file ∈ applied
    · simp only [migrateLoop, hmem, if_true] at h
      rw [unrecorded_cons_applied hmem]
      exact ih lastHash count w w1 n h
    · simp only [migrateLoop, hmem, if_false] at h
      rw [unrecorded_cons_new hmem]
      split at h
      · simp at h
      · rename_i content wa hr
        obtain ⟨-, hread, rfl⟩ := osReadListedFile_some hr
        split at h
        · simp at h
        · rename_i wb hx
          obtain ⟨-, rfl⟩ := dbExecute_true hx
          simp only at h
          split at h
          · simp at h
          · rename_i wc ha
            obtain ⟨-, -, rfl⟩ := ApplyMigration_true ha
            obtain ⟨contents, h1, h2, h3, h4, h5, h6⟩ := ih _ _ _ _ _ h
            refine ⟨content :: contents, ?_, ?_, ?_, ?_, ?_, ?_⟩
            · simpa [hread] using h1
            · rw [h2]
              simp [chainRecords]
              rfl
            · rw [h3]
              simp
            · rw [h4]
              simp only [List.length_cons]
              omega
            · rw [h5]; rfl
            · rw [h6]; rfl

/-- A pass of the loop over `files` that stops with an error. -/
theorem migrateLoop_error (sum256 : String → List Nat) (applied : List String) :
    ∀ (files : List String) (lastHash : String) (count : Nat) (w w1 : World) (e : Error),
      migrateLoop sum256 applied files lastHash count w = (.error e, w1) →
      ∃ (k : Nat) (file : String) (contents : List String),
        (unrecorded applied files)[k]? = some file ∧ contents.length = k ∧
        ((unrecorded applied files).take k).map (fun f => readEntry f w.migrations)
          = contents.map some ∧
        w1.ledger = w.ledger ++
          chainRecords sum256 lastHash (((unrecorded applied files).take k).zip contents) ∧
        w1.migrations = w.migrations ∧ w1.current = w.current ∧
        ((e = .readFile file ∧ w1.execLog = w.execLog ++ contents.map (fun c => (c, true))) ∨
         (∃ c, readEntry file w.migrations = some c ∧ e = .applyFile file ∧
            w1.execLog = w.execLog ++ contents.map (fun c => (c, true)) ++ [(c, false)]) ∨
         (∃ c, readEntry file w.migrations = some c ∧ e = .recordFile file ∧
            w1.execLog = w.execLog ++ contents.map (fun c => (c, true)) ++ [(c, true)])) := by
  intro files
  induction files with
  | nil =>
    intro lastHash count w w1 e h
    simp [migrateLoop] at h
  | cons file rest ih =>
    intro lastHash count w w1 e h
    by_cases hmem : file ∈ applied
    · simp only [migrateLoop, hmem, if_true] at h
      rw [unrecorded_cons_applied hmem]
      exact ih lastHash count w w1 e h
    · simp only [migrateLoop, hmem, if_false] at h
      rw [unrecorded_cons_new hmem]
      split at h
      · rename_i wa hr
        obtain ⟨rfl, -⟩ := osReadListedFile_none hr
        simp only [Prod.mk.injEq, Except.error.injEq] at h
        obtain ⟨rfl, rfl⟩ := h
        exact ⟨0, file, [], by simp [chainRecords]⟩
      · rename_i content wa hr
        obtain ⟨-, hread, rfl⟩ := osReadListedFile_some hr
        split at h
        · rename_i wb hx
          obtain ⟨-, rfl⟩ := dbExecute_false hx
          simp only [Prod.mk.injEq, Except.error.injEq] at h
          obtain ⟨rfl, rfl⟩ := h
          exact ⟨0, file, [], by simp [chainRecords, hread]⟩
        · rename_i wb hx
          obtain ⟨-, rfl⟩ := dbExecute_true hx
          simp only at h
          split at h
          · rename_i wc ha
            obtain ⟨rfl, -⟩ := ApplyMigration_false ha
            simp only [Prod.mk.injEq, Except.error.injEq] at h
            obtain ⟨rfl, rfl⟩ := h
            exact ⟨0, file, [], by simp [chainRecords, hread]⟩
          · rename_i wc ha
            obtain ⟨-, -, rfl⟩ := ApplyMigration_true ha
            obtain ⟨k, f, contents, h1, h2, h3, h4, h5, h6, h7⟩ := ih _ _ _ _ _ h
            refine ⟨k + 1, f, content :: contents, ?_, ?_, ?_, ?_, ?_, ?_, ?_⟩
            · simpa using h1
            · simp [h2]
            · simpa [hread] using h3
            · rw [h4]
              simp [chainRecords]
              rfl
            · rw [h5]; rfl
            · rw [h6]; rfl
            · rcases h7 with ⟨he, hl⟩ | ⟨c, hc, he, hl⟩ | ⟨c, hc, he, hl⟩
              · left
                refine ⟨he, ?_⟩
                rw [hl]; simp
              · right; left
                refine ⟨c, hc, he, ?_⟩
                rw [hl]; simp
              · right; right
                refine ⟨c, hc, he, ?_⟩
                rw [hl]; simp

/-- With every listed file recorded the loop does nothing. -/
theorem migrateLoop_all_applied (sum256 : String → List Nat) (applied : List String) :
    ∀ (files : List String) (lastHash : String) (count : Nat) (w : World),
      (∀ f ∈ files, f ∈ applied) →
      migrateLoop sum256 applied files lastHash count w = (.ok count, w) := by
  intro files
  induction files with
  | nil => intro lastHash count w _; rfl
  | cons file rest ih =>
    intro lastHash count w h
    have hmem : file ∈ applied := h file (List.mem_cons_self _ _)
    simp only [migrateLoop, hmem, if_true]
    exact ih lastHash count w (fun f hf => h f (List.mem_cons_of_mem _ hf))

theorem chainRecords_fileNames (sum256 : String → List Nat) :
    ∀ (l : List (String × String)) (prev : String),
      (chainRecords sum256 prev l).map Migration.FileName = l.map Prod.fst := by
  intro l
  induction l with
  | nil => intro prev; rfl
  | cons p rest ih =>
    intro prev
    obtain ⟨f, c⟩ := p
    simp [chainRecords, ih]

theorem chainRecords_length (sum256 : String → List Nat) :
    ∀ (l : List (String × String)) (prev : String),
      (chainRecords sum256 prev l).length = l.length := by
  intro l
  induction l with
  | nil => intro prev; rfl
  | cons p rest ih =>
    intro prev
    obtain ⟨f, c⟩ := p
    simp [chainRecords, ih]

/-- The two listings Migrate starts with, when the environment lets them through. -/
theorem Migrate_eq_loop (sum256 : String → List Nat) (w : World)
    (h1 : failing w = false) (h2 : failing (tick w) = false) :
    Migrate sum256 w = migrateLoop sum256 (w.ledger.map Migration.FileName)
      (catalog w.migrations) (lastHashOf w.ledger) 0 (tick (tick w)) := by
  unfold Migrate GetAppliedMigrations getFiles osReadDir
  simp [h1, h2, catalog]

/-- A run of Migrate that ends in the loop, with the value or error of the loop. -/
theorem Migrate_loop_of_result (sum256 : String → List Nat) (w w1 : World)
    (r : Except Error Nat) (h : Migrate sum256 w = (r, w1))
    (hr : r ≠ .error .getApplied ∧ r ≠ .error .readDir) :
    migrateLoop sum256 (w.ledger.map Migration.FileName)
      (catalog w.migrations) (lastHashOf w.ledger) 0 (tick (tick w)) = (r, w1) := by
  cases h1 : failing w
  · cases h2 : failing (tick w)
    · rw [← Migrate_eq_loop sum256 w h1 h2]; exact h
    · unfold Migrate GetAppliedMigrations getFiles osReadDir at h
      simp [h1, h2] at h
      exact absurd h.1.symm hr.2
  · unfold Migrate GetAppliedMigrations at h
    simp [h1] at h
    exact absurd h.1.symm hr.1

/-- C4: a successful Migrate processes exactly the catalog entries whose name is
not the file name of a ledger record, in catalog order: it reads each, executes
its content once, and appends one record per file in that order with the digest
of the content as hash, the first one chained to the hash of the last earlier
record (the empty string for an empty ledger), each next one to the record before
it.  Nothing else is executed or recorded, and the count it reports is the number
of appended records. -/
theorem C4_migrate_applies_unrecorded (sum256 : String → List Nat) (w w1 : World) (n : Nat)
    (h : Migrate sum256 w = (.ok n, w1)) :
    ∃ contents : List String,
      (∀ f, f ∈ unrecorded (w.ledger.map Migration.FileName) (catalog w.migrations) ↔
        f ∈ catalog w.migrations ∧ ∀ m ∈ w.ledger, m.FileName ≠ f) ∧
      List.Sublist (unrecorded (w.ledger.map Migration.FileName) (catalog w.migrations))
        (catalog w.migrations) ∧
      (unrecorded (w.ledger.map Migration.FileName) (catalog w.migrations)).map
        (fun f => readEntry f w.migrations) = contents.map some ∧
      w1.execLog = w.execLog ++ contents.map (fun c => (c, true)) ∧
      w1.ledger = w.ledger ++ chainRecords sum256
        (match w.ledger.getLast? with
          | none => ""
          | some m => m.Hash)
        ((unrecorded (w.ledger.map Migration.FileName) (catalog w.migrations)).zip contents) ∧
      n = (unrecorded (w.ledger.map Migration.FileName) (catalog w.migrations)).length ∧
      w1.ledger.length = w.ledger.length + n ∧
      w1.migrations = w.migrations ∧ w1.current = w.current := by
  have hl := Migrate_loop_of_result sum256 w w1 (.ok n) h ⟨by simp, by simp⟩
  obtain ⟨contents, h1, h2, h3, h4, h5, h6⟩ := migrateLoop_ok sum256 _ _ _ _ _ _ _ hl
  have hlen : (unrecorded (w.ledger.map Migration.FileName) (catalog w.migrations)).length
      = contents.length := by
    have := congrArg List.length h1
    simpa using this
  refine ⟨contents, ?_, List.filter_sublist _, h1, h3, h2, by omega, ?_, h5, h6⟩
  · intro f
    simp [unrecorded]
  · rw [h2]
    simp only [List.length_append, chainRecords_length, List.length_zip, tick_ledger]
    omega

/-- Witness of C4: with A.sql recorded and B.sql not, Migrate applies B.sql only
and chains its record to the hash of A.sql. -/
theorem C4_migrate_applies_unrecorded_witness :
    (Migrate sampleSum256 sampleProject).2.ledger =
      [Migration.mk (computeHash sampleSum256 "create table a(id int);") "" "A.sql",
       Migration.mk (computeHash sampleSum256 "create table b(id int);")
        (computeHash sampleSum256 "create table a(id int);") "B.sql"] ∧
    ∃ contents : List String,
      (∀ f, f ∈ unrecorded (sampleProject.ledger.map Migration.FileName)
          (catalog sampleProject.migrations) ↔
        f ∈ catalog sampleProject.migrations ∧ ∀ m ∈ sampleProject.ledger, m.FileName ≠ f) ∧
      List.Sublist (unrecorded (sampleProject.ledger.map Migration.FileName)
          (catalog sampleProject.migrations)) (catalog sampleProject.migrations) ∧
      (unrecorded (sampleProject.ledger.map Migration.FileName)
          (catalog sampleProject.migrations)).map
        (fun f => readEntry f sampleProject.migrations) = contents.map some ∧
      (Migrate sampleSum256 sampleProject).2.execLog =
        sampleProject.execLog ++ contents.map (fun c => (c, true)) ∧
      (Migrate sampleSum256 sampleProject).2.ledger = sampleProject.ledger ++
        chainRecords sampleSum256
          (match sampleProject.ledger.getLast? with
            | none => ""
            | some m => m.Hash)
          ((unrecorded (sampleProject.ledger.map Migration.FileName)
            (catalog sampleProject.migrations)).zip contents) ∧
      1 = (unrecorded (sampleProject.ledger.map Migration.FileName)
        (catalog sampleProject.migrations)).length ∧
      (Migrate sampleSum256 sampleProject).2.ledger.length = sampleProject.ledger.length + 1 ∧
      (Migrate sampleSum256 sampleProject).2.migrations = sampleProject.migrations ∧
      (Migrate sampleSum256 sampleProject).2.current = sampleProject.current :=
  ⟨by decide, C4_migrate_applies_unrecorded sampleSum256 sampleProject
    (Migrate sampleSum256 sampleProject).2 1 (by decide)⟩

/-- C5: after a successful Migrate, a further Migrate on the same ledger and the
same migrations directory, whose two listings the environment lets through,
succeeds with count 0, executes no SQL and leaves the ledger as the first run
left it. -/
theorem C5_migrate_fixed_point (sum256 : String → List Nat) (w w1 v : World) (n : Nat)
    (h : Migrate sum256 w = (.ok n, w1))
    (hv : v.ledger = w1.ledger ∧ v.migrations = w1.migrations)
    (henv : failing v = false ∧ failing (tick v) = false) :
    (Migrate sum256 v).1 = .ok 0 ∧
    (Migrate sum256 v).2.execLog = v.execLog ∧
    (Migrate sum256 v).2.ledger = w1.ledger ∧
    (Migrate sum256 v).2.migrations = w1.migrations ∧
    (Migrate sum256 v).2.current = v.current := by
  have hl := Migrate_loop_of_result sum256 w w1 (.ok n) h ⟨by simp, by simp⟩
  obtain ⟨contents, h1, h2, -, -, h5, -⟩ := migrateLoop_ok sum256 _ _ _ _ _ _ _ hl
  have hlen : (unrecorded (w.ledger.map Migration.FileName) (catalog w.migrations)).length
      = contents.length := by
    have := congrArg List.length h1
    simpa using this
  have hall : ∀ f ∈ catalog v.migrations, f ∈ v.ledger.map Migration.FileName := by
    intro f hf
    rw [hv.1, h2, List.map_append, chainRecords_fileNames, List.map_fst_zip _ _ (le_of_eq hlen),
      List.mem_append]
    rw [hv.2, h5] at hf
    by_cases hm : f ∈ (tick (tick w)).ledger.map Migration.FileName
    · left; exact hm
    · right
      simp only [unrecorded, List.mem_filter, decide_eq_true_eq, tick_ledger, tick_migrations]
      exact ⟨hf, hm⟩
  rw [Migrate_eq_loop sum256 v henv.1 henv.2, migrateLoop_all_applied sum256 _ _ _ _ _ hall]
  exact ⟨rfl, rfl, hv.1, hv.2, rfl⟩

/-- Witness of C5: Migrate run twice on the sample project. -/
theorem C5_migrate_fixed_point_witness :
    (Migrate sampleSum256 sampleProject).1 = .ok 1 ∧
    (Migrate sampleSum256 (Migrate sampleSum256 sampleProject).2).1 = .ok 0 ∧
    (Migrate sampleSum256 (Migrate sampleSum256 sampleProject).2).2.execLog =
      (Migrate sampleSum256 sampleProject).2.execLog :=
  have h := C5_migrate_fixed_point sampleSum256 sampleProject
    (Migrate sampleSum256 sampleProject).2 (Migrate sampleSum256 sampleProject).2 1
    (by decide) ⟨rfl, rfl⟩ (by decide)
  ⟨by decide, h.1, h.2.1⟩

/-- C10: when Migrate fails while processing a file, that file is an unrecorded
catalog entry, number k counting from 0, and the error is the read, execute or
record error naming it.  The k unrecorded entries before it have been read,
executed (each once, successfully) and recorded: the ledger is the earlier ledger
followed by exactly their chained records, none removed.  The failing file is
executed at most once and not recorded, no later entry is executed or recorded,
and the migration files and the staging buffer are untouched. -/
theorem C10_migrate_failure_forward_only (sum256 : String → List Nat) (w w1 : World) (e : Error)
    (h : Migrate sum256 w = (.error e, w1)) (hfile : e ≠ .getApplied ∧ e ≠ .readDir) :
    ∃ (k : Nat) (file : String) (contents : List String),
      (unrecorded (w.ledger.map Migration.FileName) (catalog w.migrations))[k]? = some file ∧
      contents.length = k ∧
      ((unrecorded (w.ledger.map Migration.FileName) (catalog w.migrations)).take k).map
        (fun f => readEntry f w.migrations) = contents.map some ∧
      w1.ledger = w.ledger ++ chainRecords sum256 (lastHashOf w.ledger)
        (((unrecorded (w.ledger.map Migration.FileName) (catalog w.migrations)).take k).zip
          contents) ∧
      w1.migrations = w.migrations ∧ w1.current = w.current ∧
      ((e = .readFile file ∧ w1.execLog = w.execLog ++ contents.map (fun c => (c, true))) ∨
       (∃ c, readEntry file w.migrations = some c ∧ e = .applyFile file ∧
          w1.execLog = w.execLog ++ contents.map (fun c => (c, true)) ++ [(c, false)]) ∨
       (∃ c, readEntry file w.migrations = some c ∧ e = .recordFile file ∧
          w1.execLog = w.execLog ++ contents.map (fun c => (c, true)) ++ [(c, true)])) := by
  have hl := Migrate_loop_of_result sum256 w w1 (.error e) h
    ⟨fun hc => hfile.1 (Except.error.inj hc), fun hc => hfile.2 (Except.error.inj hc)⟩
  exact migrateLoop_error sum256 _ _ _ _ (tick (tick w)) _ _ hl

/-- Witness of C10: B.sql, C.sql and D.sql are unrecorded and the database rejects
C.sql; B.sql stays applied and recorded, D.sql is not touched. -/
theorem C10_migrate_failure_forward_only_witness :
    Migrate sampleSum256 sampleFailing =
      (.error (.applyFile "C.sql"),
        { sampleFailing with
          ledger := sampleProject.ledger ++
            [Migration.mk (computeHash sampleSum256 "create table b(id int);")
              (computeHash sampleSum256 "create table a(id int);") "B.sql"],
          execLog := [("create table a(id int);", true), ("create table b(id int);", true),
            ("create table c(id int);", false)],
          faults := [] }) ∧
    ∃ (k : Nat) (file : String) (contents : List String),
      (unrecorded (sampleFailing.ledger.map Migration.FileName)
        (catalog sampleFailing.migrations))[k]? = some file ∧ contents.length = k :=
  have h := C10_migrate_failure_forward_only sampleSum256 sampleFailing
    (Migrate sampleSum256 sampleFailing).2 (.applyFile "C.sql") (by decide) (by decide)
  ⟨by decide, h.elim fun k hk => hk.elim fun file hf => hf.elim fun contents hc =>
    ⟨k, file, contents, hc.1, hc.2.1⟩⟩

/-! ## The hash chain -/

theorem lastHashOf_nil : lastHashOf [] = "" := rfl

theorem lastHashOf_append_singleton (l : List Migration) (m : Migration) :
    lastHashOf (l ++ [m]) = m.Hash := by
  simp [lastHashOf]

theorem chained_chainRecords (sum256 : String → List Nat) :
    ∀ (l : List (String × String)) (prev : String), chained prev (chainRecords sum256 prev l) := by
  intro l
  induction l with
  | nil => intro prev; trivial
  | cons p rest ih =>
    intro prev
    obtain ⟨f, c⟩ := p
    exact ⟨rfl, ih _⟩

/-- Appending to a chained list a list chained from its last hash. -/
theorem chained_append :
    ∀ (l1 l2 : List Migration) (prev : String), chained prev l1 →
      chained (match l1.getLast? with
        | none => prev
        | some m => m.Hash) l2 →
      chained prev (l1 ++ l2) := by
  intro l1
  induction l1 with
  | nil => intro l2 prev _ h2; simpa using h2
  | cons m rest ih =>
    intro l2 prev h1 h2
    refine ⟨h1.1, ih l2 m.Hash h1.2 ?_⟩
    cases rest with
    | nil => simpa using h2
    | cons m2 rest2 =>
      simp only [List.getLast?_cons_cons] at h2
      exact h2

theorem chained_append_lastHashOf (l1 l2 : List Migration) (h1 : chained "" l1)
    (h2 : chained (lastHashOf l1) l2) : chained "" (l1 ++ l2) :=
  chained_append l1 l2 "" h1 h2

theorem chained_index :
    ∀ (l : List Migration) (prev : String), chained prev l →
      (∀ m, l[0]? = some m → m.PreviousHash = prev) ∧
      ∀ (i : Nat) (p m : Migration), l[i]? = some p → l[i + 1]? = some m →
        m.PreviousHash = p.Hash := by
  intro l
  induction l with
  | nil =>
    intro prev _
    exact ⟨fun m h => by simp at h, fun i p m h => by simp at h⟩
  | cons a rest ih =>
    intro prev h
    obtain ⟨iha, ihb⟩ := ih a.Hash h.2
    refine ⟨fun m hm => ?_, fun i p m hp hm => ?_⟩
    · simp only [List.getElem?_cons_zero, Option.some.injEq] at hm
      rw [← hm]; exact h.1
    · cases i with
      | zero =>
        simp only [List.getElem?_cons_zero, Option.some.injEq] at hp
        simp only [zero_add, List.getElem?_cons_succ] at hm
        rw [← hp]; exact iha m hm
      | succ j =>
        simp only [List.getElem?_cons_succ] at hp hm
        exact ihb j p m hp hm

/-- Whatever its outcome, Commit leaves the ledger alone or appends one record
chained to the last one. -/
theorem Commit_ledger (sum256 : String → List Nat) (ts N : String) (w : World) :
    (Commit sum256 ts N w).2.ledger = w.ledger ∨
    ∃ h f, (Commit sum256 ts N w).2.ledger = w.ledger ++ [Migration.mk h (lastHashOf w.ledger) f] := by
  generalize hres : Commit sum256 ts N w = res
  obtain ⟨r, w1⟩ := res
  unfold Commit at hres
  split at hres
  · rename_i wa hrc
    obtain ⟨rfl, -⟩ := readCurrent_none hrc
    simp only [Prod.mk.injEq] at hres
    obtain ⟨-, rfl⟩ := hres
    left; rfl
  · rename_i content wa hrc
    obtain ⟨-, -, rfl⟩ := readCurrent_some hrc
    split at hres
    · simp only [Prod.mk.injEq] at hres
      obtain ⟨-, rfl⟩ := hres
      left; rfl
    · simp only at hres
      split at hres
      · rename_i wb hg
        obtain ⟨-, rfl⟩ := GetAppliedMigrations_none hg
        simp only [Prod.mk.injEq] at hres
        obtain ⟨-, rfl⟩ := hres
        left; rfl
      · rename_i ms wb hg
        obtain ⟨-, rfl, rfl⟩ := GetAppliedMigrations_some hg
        split at hres
        · rename_i wc hw
          obtain ⟨rfl, -⟩ := osWriteFile_false hw
          simp only [Prod.mk.injEq] at hres
          obtain ⟨-, rfl⟩ := hres
          left; rfl
        · rename_i wc hw
          obtain ⟨-, hwp⟩ := osWriteFile_true hw
          have hwl : wc.ledger = w.ledger := (writePlace_frame hwp).1
          split at hres
          · rename_i wd hx
            obtain ⟨-, rfl⟩ := dbExecute_false hx
            simp only [Prod.mk.injEq] at hres
            obtain ⟨-, rfl⟩ := hres
            left; exact hwl
          · rename_i wd hx
            obtain ⟨-, rfl⟩ := dbExecute_true hx
            split at hres
            · rename_i we ha
              obtain ⟨rfl, -⟩ := ApplyMigration_false ha
              simp only [Prod.mk.injEq] at hres
              obtain ⟨-, rfl⟩ := hres
              left; exact hwl
            · rename_i we ha
              obtain ⟨-, -, rfl⟩ := ApplyMigration_true ha
              split at hres
              · rename_i wf hwc
                obtain ⟨-, rfl⟩ := writeCurrent_false hwc
                simp only [Prod.mk.injEq] at hres
                obtain ⟨-, rfl⟩ := hres
                right
                refine ⟨computeHash sum256 content, migrationFileName ts N, ?_⟩
                simp [hwl]
              · rename_i wf hwc
                obtain ⟨-, rfl⟩ := writeCurrent_true hwc
                simp only [Prod.mk.injEq] at hres
                obtain ⟨-, rfl⟩ := hres
                right
                refine ⟨computeHash sum256 content, migrationFileName ts N, ?_⟩
                simp [hwl]

/-- Whatever its outcome, Migrate appends to the ledger records chained from the
last one. -/
theorem Migrate_ledger (sum256 : String → List Nat) (w : World) :
    ∃ l, (Migrate sum256 w).2.ledger = w.ledger ++ chainRecords sum256 (lastHashOf w.ledger) l := by
  generalize hres : Migrate sum256 w = res
  obtain ⟨r, w1⟩ := res
  by_cases hr : r ≠ .error .getApplied ∧ r ≠ .error .readDir
  · have hl := Migrate_loop_of_result sum256 w w1 r hres hr
    cases r with
    | ok n =>
      obtain ⟨contents, -, h2, -⟩ := migrateLoop_ok sum256 _ _ _ _ _ _ _ hl
      exact ⟨_, h2⟩
    | error e =>
      obtain ⟨k, f, contents, -, -, -, h4, -⟩ := migrateLoop_error sum256 _ _ _ _ _ _ _ hl
      exact ⟨_, h4⟩
  · refine ⟨[], ?_⟩
    unfold Migrate at hres
    split at hres
    · rename_i wa hg
      obtain ⟨-, rfl⟩ := GetAppliedMigrations_none hg
      simp only [Prod.mk.injEq] at hres
      obtain ⟨-, rfl⟩ := hres
      simp [chainRecords]
    · rename_i ms wa hg
      obtain ⟨-, rfl, rfl⟩ := GetAppliedMigrations_some hg
      split at hres
      · rename_i wb hf
        have hw : wb = tick (tick w) := by
          rw [getFiles_eq] at hf
          simp only [Prod.mk.injEq] at hf
          exact hf.2.symm
        subst hw
        simp only [Prod.mk.injEq] at hres
        obtain ⟨-, rfl⟩ := hres
        simp [chainRecords]
      · rename_i files wb hf
        exfalso
        apply hr
        have hw : wb = tick (tick w) := by
          rw [getFiles_eq] at hf
          simp only [Prod.mk.injEq] at hf
          exact hf.2.symm
        subst hw
        cases r with
        | ok n => exact ⟨by simp, by simp⟩
        | error e =>
          obtain ⟨k, f, contents, -, -, -, -, -, -, h7⟩ := migrateLoop_error sum256 _ _ _ _ _ _ _ hres
          rcases h7 with ⟨he, -⟩ | ⟨c, -, he, -⟩ | ⟨c, -, he, -⟩ <;> subst he <;>
            exact ⟨by simp, by simp⟩

theorem Step_exec_chained (sum256 : String → List Nat) (s : Step) (w : World)
    (h : chained "" w.ledger) : chained "" (s.exec sum256 w).ledger := by
  cases s with
  | commit ts N =>
    rcases Commit_ledger sum256 ts N w with h1 | ⟨hs, f, h1⟩
    · simp only [Step.exec]; rw [h1]; exact h
    · simp only [Step.exec]; rw [h1]
      exact chained_append_lastHashOf _ _ h ⟨rfl, trivial⟩
  | migrate =>
    obtain ⟨l, h1⟩ := Migrate_ledger sum256 w
    simp only [Step.exec]; rw [h1]
    exact chained_append_lastHashOf _ _ h (chained_chainRecords sum256 l _)
  | outside c ms fs => exact h

theorem runSteps_chained (sum256 : String → List Nat) :
    ∀ (steps : List Step) (w : World), chained "" w.ledger →
      chained "" (runSteps sum256 steps w).ledger := by
  intro steps
  induction steps with
  | nil => intro w h; exact h
  | cons s rest ih => intro w h; exact ih _ (Step_exec_chained sum256 s w h)

/-- C3: starting from an empty ledger, after any sequence of Commit and Migrate
calls, succeeding or failing, with arbitrary changes to the staging buffer and
the migrations directory in between, the first ledger record has no previous
hash (the empty string) and every later record has the hash of the record before
it as previous hash. -/
theorem C3_chain_integrity (sum256 : String → List Nat) (steps : List Step) (w : World)
    (hempty : w.ledger = []) :
    (∀ m, (runSteps sum256 steps w).ledger[0]? = some m → m.PreviousHash = "") ∧
    ∀ (i : Nat) (p m : Migration), (runSteps sum256 steps w).ledger[i]? = some p →
      (runSteps sum256 steps w).ledger[i + 1]? = some m → m.PreviousHash = p.Hash := by
  apply chained_index
  apply runSteps_chained
  rw [hempty]
  trivial

/-- Witness of C3: the sample session ends with four records in the ledger. -/
theorem C3_chain_integrity_witness :
    (runSteps sampleSum256 sampleSession sampleStaged).ledger.length = 4 ∧
    ((∀ m, (runSteps sampleSum256 sampleSession sampleStaged).ledger[0]? = some m →
        m.PreviousHash = "") ∧
      ∀ (i : Nat) (p m : Migration),
        (runSteps sampleSum256 sampleSession sampleStaged).ledger[i]? = some p →
        (runSteps sampleSum256 sampleSession sampleStaged).ledger[i + 1]? = some m →
        m.PreviousHash = p.Hash) :=
  ⟨by decide, C3_chain_integrity sampleSum256 sampleSession sampleStaged rfl⟩

/-! ## Commit that fails -/

/-- What a failed Commit leaves behind, by failing step. -/
theorem Commit_error {sum256 : String → List Nat} {ts N : String} {w w1 : World} {e : Error}
    (h : Commit sum256 ts N w = (.error e, w1)) :
    w1.current = w.current ∧ w1.dir = w.dir ∧
    (e = .applyMigration ∨ e = .recordMigration →
      ∃ C wm, w.current = some C ∧ C.length ≠ 0 ∧
        writePlace C w (place w.dir (migrationFileName ts N)) = some wm ∧
        w1.current = wm.current ∧ w1.migrations = wm.migrations ∧
        w1.elsewhere = wm.elsewhere ∧ w1.ledger = w.ledger ∧
        w1.execLog = w.execLog ++ [(C, decide (e = .recordMigration))]) := by
  unfold Commit at h
  split at h
  · rename_i wa hrc
    obtain ⟨rfl, -⟩ := readCurrent_none hrc
    simp only [Prod.mk.injEq, Except.error.injEq] at h
    obtain ⟨rfl, rfl⟩ := h
    exact ⟨rfl, rfl, by simp⟩
  · rename_i content wa hrc
    obtain ⟨-, hcur, rfl⟩ := readCurrent_some hrc
    split at h
    · simp only [Prod.mk.injEq, Except.error.injEq] at h
      obtain ⟨rfl, rfl⟩ := h
      exact ⟨rfl, rfl, by simp⟩
    · rename_i hlen
      simp only at h
      split at h
      · rename_i wb hg
        obtain ⟨-, rfl⟩ := GetAppliedMigrations_none hg
        simp only [Prod.mk.injEq, Except.error.injEq] at h
        obtain ⟨rfl, rfl⟩ := h
        exact ⟨rfl, rfl, by simp⟩
      · rename_i ms wb hg
        obtain ⟨-, rfl, rfl⟩ := GetAppliedMigrations_some hg
        split at h
        · rename_i wc hw
          obtain ⟨rfl, -⟩ := osWriteFile_false hw
          simp only [Prod.mk.injEq, Except.error.injEq] at h
          obtain ⟨rfl, rfl⟩ := h
          exact ⟨rfl, rfl, by simp⟩
        · rename_i wc hw
          obtain ⟨-, hwp⟩ := osWriteFile_true hw
          rw [writePlace_tick, writePlace_tick, writePlace_tick] at hwp
          simp only [Option.map_map, Option.map_eq_some', tick_dir] at hwp
          obtain ⟨wm, hwm, rfl⟩ := hwp
          obtain ⟨f1, f2, -, f4⟩ := writePlace_frame hwm
          have fc : wm.current = w.current := by
            rcases writePlace_current hwm with hc | hc
            · exact hc
            · rw [hc, hcur]
          split at h
          · rename_i wd hx
            obtain ⟨-, rfl⟩ := dbExecute_false hx
            simp only [Prod.mk.injEq, Except.error.injEq] at h
            obtain ⟨rfl, rfl⟩ := h
            refine ⟨fc, f4, fun _ => ⟨content, wm, hcur, hlen, hwm, rfl, rfl, rfl, f1, ?_⟩⟩
            simp [f2]
          · rename_i wd hx
            obtain ⟨-, rfl⟩ := dbExecute_true hx
            split at h
            · rename_i we ha
              obtain ⟨rfl, -⟩ := ApplyMigration_false ha
              simp only [Prod.mk.injEq, Except.error.injEq] at h
              obtain ⟨rfl, rfl⟩ := h
              refine ⟨fc, f4, fun _ => ⟨content, wm, hcur, hlen, hwm, rfl, rfl, rfl, f1, ?_⟩⟩
              simp [f2]
            · rename_i we ha
              obtain ⟨-, -, rfl⟩ := ApplyMigration_true ha
              split at h
              · rename_i wf hwc
                obtain ⟨-, rfl⟩ := writeCurrent_false hwc
                simp only [Prod.mk.injEq, Except.error.injEq] at h
                obtain ⟨rfl, rfl⟩ := h
                exact ⟨fc, f4, by simp⟩
              · simp at h

/-- C11: when Commit of staging content C fails, at whatever step, the staging
buffer still holds exactly C.  When the failing step is the SQL execution or the
ledger record (a duplicate hash included), the file this call wrote, the one the
path filepath.Join(m.MigrationsDir, fileName) names, holds C; for a file name
without path separator it is the entry of that name in the migrations directory.
The ledger is exactly as before, and C was sent to the database once: rejected in
the first case, executed in the second. -/
theorem C11_commit_partial_failure (sum256 : String → List Nat) (ts N C : String)
    (w w1 : World) (e : Error) (hC : w.current = some C)
    (h : Commit sum256 ts N w = (.error e, w1)) :
    w1.current = some C ∧
    (e = .applyMigration ∨ e = .recordMigration →
      C ≠ "" ∧
      fileAt w1 (migrationFileName ts N) = some C ∧
      (noSlash (migrationFileName ts N) →
        DirEntry.mk (migrationFileName ts N) false C ∈ w1.migrations ∧
        readEntry (migrationFileName ts N) w1.migrations = some C) ∧
      w1.ledger = w.ledger ∧
      w1.execLog = w.execLog ++ [(C, decide (e = .recordMigration))]) := by
  obtain ⟨h1, hd, h2⟩ := Commit_error h
  refine ⟨by rw [h1, hC], fun he => ?_⟩
  obtain ⟨C1, wm, hcur, hlen, hwm, hc, hm, hel, hl, hx⟩ := h2 he
  have hCC : C1 = C := by
    rw [hC] at hcur
    exact (Option.some.inj hcur).symm
  subst hCC
  refine ⟨length_ne_zero_ne_empty hlen, ?_, ?_, hl, hx⟩
  · unfold fileAt
    rw [hd, readPlace_congr _ hc hm hel]
    exact writePlace_read hwm
  · intro hplain
    rw [place_migrationFileName w.dir hplain] at hwm
    obtain ⟨es, hes, rfl⟩ := writePlace_entry hwm
    rw [hm]
    exact ⟨writeEntry_mem hes, writeEntry_read hes⟩

/-- Witness of C11: the staged content is that of a recorded migration, so the
record step is rejected for its duplicate hash. -/
theorem C11_commit_partial_failure_witness :
    (Commit sampleSum256 "20240107000000" "again" sampleDuplicate).1 = .error .recordMigration ∧
    (Commit sampleSum256 "20240107000000" "again" sampleDuplicate).2.current =
      some "create table a(id int);" ∧
    (Commit sampleSum256 "20240107000000" "again" sampleDuplicate).2.ledger =
      sampleDuplicate.ledger ∧
    readEntry "20240107000000_again.sql"
      (Commit sampleSum256 "20240107000000" "again" sampleDuplicate).2.migrations =
        some "create table a(id int);" :=
  have h := C11_commit_partial_failure sampleSum256 "20240107000000" "again"
    "create table a(id int);" sampleDuplicate
    (Commit sampleSum256 "20240107000000" "again" sampleDuplicate).2 .recordMigration rfl
    (by decide)
  ⟨by decide, h.1, (h.2 (Or.inr rfl)).2.2.2.1, ((h.2 (Or.inr rfl)).2.2.1 (by decide)).2⟩

/-! ## Uncommit with a missing file -/

theorem readEntry_absent {n : String} {es : List DirEntry} (h : ∀ e ∈ es, e.Name ≠ n) :
    readEntry n es = none := by
  induction es with
  | nil => rfl
  | cons e rest ih =>
    have h1 : e.Name ≠ n := h e (List.mem_cons_self _ _)
    have h2 : ∀ x ∈ rest, x.Name ≠ n := fun x hx => h x (List.mem_cons_of_mem _ hx)
    simp [readEntry, h1, ih h2]

/-- A name that is one path element and no entry of the directory names no file. -/
theorem fileAt_absent {w : World} {n : String} (hplain : noSlash n)
    (h0 : n ≠ "") (h1 : n ≠ ".") (h2 : n ≠ "..") (h : ∀ e ∈ w.migrations, e.Name ≠ n) :
    fileAt w n = none := by
  unfold fileAt
  rw [place_of_noSlash w.dir hplain h0 h1 h2]
  exact readEntry_absent h

theorem filter_last_of_nodup :
    ∀ (l : List Migration) (m : Migration), l.getLast? = some m → (l.map Migration.Hash).Nodup →
      l.filter (fun r => decide (r.Hash ≠ m.Hash)) = l.dropLast := by
  intro l m hlast hnd
  obtain ⟨l0, rfl⟩ : ∃ l0, l = l0 ++ [m] := by
    rcases List.eq_nil_or_concat l with rfl | ⟨l0, a, rfl⟩
    · simp at hlast
    · simp at hlast
      subst hlast
      exact ⟨l0, by simp⟩
  rw [List.map_append, List.nodup_append] at hnd
  obtain ⟨-, -, hdis⟩ := hnd
  have hkeep : l0.filter (fun r => decide (r.Hash ≠ m.Hash)) = l0 := by
    rw [List.filter_eq_self]
    intro a ha
    have : a.Hash ≠ m.Hash := by
      intro heq
      exact hdis (List.mem_map_of_mem _ ha) (by simp [heq])
    simpa using this
  rw [List.filter_append, hkeep]
  simp

/-- C12, as stated, fails: when the file of the most recent record is missing,
Uncommit fails reading it, but the record is gone from the ledger. -/
theorem C12_counterexample :
    sampleMissing.ledger.getLast? = some (Migration.mk
      (computeHash sampleSum256 "create table t(id int);") "" "20240101000000_init.sql") ∧
    (∀ e ∈ sampleMissing.migrations, e.Name ≠ "20240101000000_init.sql") ∧
    (Uncommit sampleMissing).1 = .error .readMigrationFile ∧
    (Uncommit sampleMissing).2.ledger = [] ∧
    (Uncommit sampleMissing).2.ledger ≠ sampleMissing.ledger := by
  decide

/-- C12, amended: when the path filepath.Join(m.MigrationsDir, FileName) of the
most recent ledger record names no file (for a file name that is one path
element: no entry of the migrations directory has that name) and the store lets
the removal through, Uncommit fails with the error of reading the migration
file; the staging buffer, the migrations directory, the files elsewhere and the
executed SQL are unchanged, but the record has already been deleted: the ledger
is the earlier one without the rows of that hash, which under the primary key is
the earlier ledger without its last row. -/
theorem C12_uncommit_missing_file (w : World) (m : Migration)
    (hlast : w.ledger.getLast? = some m)
    (habsent : fileAt w m.FileName = none)
    (hstore : failing w = false) :
    (Uncommit w).1 = .error .readMigrationFile ∧
    (Uncommit w).2.current = w.current ∧
    (Uncommit w).2.migrations = w.migrations ∧
    (Uncommit w).2.elsewhere = w.elsewhere ∧
    (Uncommit w).2.execLog = w.execLog ∧
    (Uncommit w).2.ledger = w.ledger.filter (fun r => decide (r.Hash ≠ m.Hash)) ∧
    m ∉ (Uncommit w).2.ledger ∧
    ((w.ledger.map Migration.Hash).Nodup → (Uncommit w).2.ledger = w.ledger.dropLast) ∧
    (noSlash m.FileName → m.FileName ≠ "" → m.FileName ≠ "." → m.FileName ≠ ".." →
      (fileAt w m.FileName = none ↔ readEntry m.FileName w.migrations = none)) := by
  have hread : fileAt { tick w with
      ledger := w.ledger.filter (fun r => decide (r.Hash ≠ m.Hash)) } m.FileName = none := by
    rw [← habsent]
    exact fileAt_congr m.FileName rfl rfl rfl rfl
  have hU : Uncommit w = (.error .readMigrationFile,
      tick { tick w with ledger := w.ledger.filter (fun r => decide (r.Hash ≠ m.Hash)) }) := by
    have hR : RemoveLastMigration w = (some m,
        { tick w with ledger := w.ledger.filter (fun r => decide (r.Hash ≠ m.Hash)) }) := by
      unfold RemoveLastMigration
      simp [hstore, hlast]
    have hF : osReadFile m.FileName
        { tick w with ledger := w.ledger.filter (fun r => decide (r.Hash ≠ m.Hash)) } =
        (none, tick { tick w with
          ledger := w.ledger.filter (fun r => decide (r.Hash ≠ m.Hash)) }) := by
      unfold osReadFile
      split
      · rfl
      · rw [hread]
    unfold Uncommit
    rw [hR]
    simp only
    rw [hF]
  rw [hU]
  refine ⟨rfl, rfl, rfl, rfl, rfl, rfl, ?_, fun hnd => filter_last_of_nodup _ _ hlast hnd, ?_⟩
  · simp [tick]
  · intro hp h0 h1 h2
    unfold fileAt
    rw [place_of_noSlash w.dir hp h0 h1 h2]
    rfl

/-- Witness of C12: the sample project with the missing file. -/
theorem C12_uncommit_missing_file_witness :
    (Uncommit sampleMissing).1 = .error .readMigrationFile ∧
    (Uncommit sampleMissing).2.current = some "alter table t add c int;" ∧
    (Uncommit sampleMissing).2.ledger = sampleMissing.ledger.dropLast :=
  have h := C12_uncommit_missing_file sampleMissing
    (Migration.mk (computeHash sampleSum256 "create table t(id int);") ""
      "20240101000000_init.sql") (by decide) (by decide) rfl
  ⟨h.1, h.2.1, h.2.2.2.2.2.2.2.1 (by decide)⟩

end RfMigrate
